import Mathlib

/-
  Verification of the c-memory-allocator repository (src/allocator.c).

  The allocator is shallowly embedded: blocks are records keyed by their
  address, the segregated free lists are intrusive doubly linked lists
  (head pointers plus next/prev fields inside block headers, exactly as in
  the C code), size_t arithmetic is Nat taken modulo 2^64 where the C can
  wrap, and the OS calls (sbrk / mmap) consume an explicit oracle of
  success flags so that allocation failure is expressible.  Heap block
  addresses are byte offsets from heap_start; mapped blocks live at
  addresses from 2^70 upwards so the two populations are disjoint, as in a
  real process image.  Byte memory is a function Nat -> Nat; only memset
  and memcpy (used by mem_calloc / mem_realloc) write to it, matching the
  C, where mem_malloc never touches the payload.
-/

namespace CMemAlloc


/-- 2^64, the modulus of size_t arithmetic on the LP64 target. -/
def W : Nat := 2 ^ 64

/-- Truncation to 64 bits, the effect of size_t overflow. -/
def wrap64 (x : Nat) : Nat := x % W

/-- size_t subtraction a - b with wraparound. -/
def sub64 (a b : Nat) : Nat := wrap64 (a + (W - wrap64 b))

/-- sizeof(block_header_t) on LP64: 8 (size) + 8 (next) + 8 (prev) + 4 + 4. -/
def HDR : Nat := 32

def MIN_BLOCK_SIZE : Nat := 32

def NUM_SIZE_CLASSES : Nat := 10

def MMAP_THRESHOLD : Nat := 131072

def BRK_INCREMENT : Nat := 65536

/-- align_size from allocator.c: (size + 15) & ~15 in size_t arithmetic. -/
def align_size (size : Nat) : Nat := wrap64 (size + 15) / 16 * 16

/-- The total block size mem_malloc computes: align_size(size + sizeof(header))
    with the addition wrapping as in C. -/
def totalBlockSize (size : Nat) : Nat := align_size (wrap64 (size + HDR))

/-- get_size_class from allocator.c. -/
def get_size_class (size : Nat) : Nat :=
  if size ≤ 32 then 0
  else if size ≤ 64 then 1
  else if size ≤ 128 then 2
  else if size ≤ 256 then 3
  else if size ≤ 512 then 4
  else if size ≤ 1024 then 5
  else if size ≤ 2048 then 6
  else if size ≤ 4096 then 7
  else if size ≤ 8192 then 8
  else 9

/-- block_header_t.  next/prev are the intrusive free-list pointers,
    holding the address of another block or none for NULL. -/
structure Block where
  size : Nat
  next : Option Nat
  prev : Option Nat
  is_free : Bool
  is_mmap : Bool
deriving Repr, DecidableEq

/-- mem_stats_t. -/
structure Stats where
  total_allocated : Nat
  total_freed : Nat
  current_usage : Nat
  num_allocations : Nat
  num_frees : Nat
  num_splits : Nat
  num_coalesces : Nat
deriving Repr, DecidableEq

def Stats.zero : Stats := ⟨0, 0, 0, 0, 0, 0, 0⟩

/-- The collection of block headers living in a region, keyed by address. -/
abbrev Heap := List (Nat × Block)

/-- Read the header stored at address a (NULL / absent reads give none). -/
def getBlock : Heap → Nat → Option Block
  | [], _ => none
  | p :: t, a => if p.1 = a then some p.2 else getBlock t a

/-- Overwrite the fields of the header at address a, if present. -/
def setBlock : Heap → Nat → Block → Heap
  | [], _, _ => []
  | p :: t, a, b => (if p.1 = a then (a, b) else p) :: setBlock t a b

/-- Forget the header at address a (its bytes stop being a block header). -/
def delBlock : Heap → Nat → Heap
  | [], _ => []
  | p :: t, a => if p.1 = a then delBlock t a else p :: delBlock t a

/-- Write a brand new header at address a, replacing whatever was there. -/
def addBlock (h : Heap) (a : Nat) (b : Block) : Heap :=
  (a, b) :: delBlock h a

/-- Byte memory: memset(dst, v, len). -/
def memsetRange (m : Nat → Nat) (dst len v : Nat) : Nat → Nat :=
  fun x => if dst ≤ x ∧ x < dst + len then v else m x

/-- Byte memory: memcpy(dst, src, len) (regions disjoint in every use here). -/
def memcpyRange (m : Nat → Nat) (dst src len : Nat) : Nat → Nat :=
  fun x => if dst ≤ x ∧ x < dst + len then m (src + (x - dst)) else m x

/-- Pop the next success flag of an OS-call oracle; an exhausted oracle
    means the OS keeps succeeding. -/
def takeOk : List Bool → Bool × List Bool
  | [] => (true, [])
  | b :: rest => (b, rest)

/-- The whole process-global state of allocator.c.

    heap     : headers of the non-mapped blocks, keyed by byte offset
               from heap_start (heap_start itself is offset 0);
    heapEnd  : heap_end - heap_start;
    freeLists: the ten heads of the segregated free lists (addresses);
    mapped   : headers of live mmap blocks, keyed by mapping address;
    nextMapAddr : the address the next anonymous mapping will receive
               (the model hands out fresh, disjoint mapping addresses
               starting far above any brk heap, as the OS does);
    mem      : payload byte memory;
    brkOk / mmapOk : oracles deciding whether the next sbrk / mmap
               call succeeds. -/
structure MState where
  heap : Heap
  heapEnd : Nat
  freeLists : List (Option Nat)
  stats : Stats
  mapped : Heap
  nextMapAddr : Nat
  mem : Nat → Nat
  brkOk : List Bool
  mmapOk : List Bool

/-- The state of the freshly loaded process: empty heap, NULL list heads,
    zeroed statistics. -/
def initState : MState where
  heap := []
  heapEnd := 0
  freeLists := List.replicate 10 none
  stats := Stats.zero
  mapped := []
  nextMapAddr := 2 ^ 70
  mem := fun _ => 0
  brkOk := []
  mmapOk := []

/-- Reading the header a user pointer refers to.  Heap offsets and mapping
    addresses are disjoint ranges, so at most one lookup can succeed. -/
def lookupAnyBlock (s : MState) (a : Nat) : Option Block :=
  match getBlock s.heap a with
  | some b => some b
  | none => getBlock s.mapped a

/-- First statement of remove_from_free_list: if block->prev, redirect its
    next pointer, else overwrite the list head of the block's class. -/
def rmUnlinkPrev (s : MState) (ci : Nat) (pv nx : Option Nat) : MState :=
  match pv with
  | some p =>
    match getBlock s.heap p with
    | some pb => { s with heap := setBlock s.heap p { pb with next := nx } }
    | none => s
  | none => { s with freeLists := s.freeLists.set ci nx }

/-- Second statement of remove_from_free_list: if block->next, redirect its
    prev pointer (re-reading the block's fields from current memory). -/
def rmUnlinkNext (s : MState) (a : Nat) : MState :=
  match getBlock s.heap a with
  | some blk1 =>
    match blk1.next with
    | some nx =>
      match getBlock s.heap nx with
      | some nb => { s with heap := setBlock s.heap nx { nb with prev := blk1.prev } }
      | none => s
    | none => s
  | none => s

/-- Final statements of remove_from_free_list: null the block's own links. -/
def rmClearLinks (s : MState) (a : Nat) : MState :=
  match getBlock s.heap a with
  | some blk2 => { s with heap := setBlock s.heap a { blk2 with next := none, prev := none } }
  | none => s

/-- remove_from_free_list from allocator.c.  Every field access re-reads
    current memory, in the order the C statements execute. -/
def remove_from_free_list (s : MState) (a : Nat) : MState :=
  match getBlock s.heap a with
  | none => s
  | some blk =>
    rmClearLinks (rmUnlinkNext (rmUnlinkPrev s (get_size_class blk.size) blk.prev blk.next) a) a

/-- The head->prev = block statement of add_to_free_list. -/
def addLinkHead (s : MState) (hd : Option Nat) (a : Nat) : MState :=
  match hd with
  | some h' =>
    match getBlock s.heap h' with
    | some hb => { s with heap := setBlock s.heap h' { hb with prev := some a } }
    | none => s
  | none => s

/-- The block->is_free = 1 statement of add_to_free_list. -/
def addMarkFree (s : MState) (a : Nat) : MState :=
  match getBlock s.heap a with
  | some blk2 => { s with heap := setBlock s.heap a { blk2 with is_free := true } }
  | none => s

/-- The block->next = list head / block->prev = NULL statements of
    add_to_free_list. -/
def addFirstWrite (s : MState) (a : Nat) (blk : Block) : MState :=
  { s with heap := setBlock s.heap a { blk with next := s.freeLists.getD (get_size_class blk.size) none, prev := none } }

/-- The free_lists[class_idx] = block statement of add_to_free_list. -/
def addListsSet (s : MState) (ci : Nat) (a : Nat) : MState :=
  { s with freeLists := s.freeLists.set ci (some a) }

/-- add_to_free_list from allocator.c, its four statements in C order. -/
def add_to_free_list (s : MState) (a : Nat) : MState :=
  match getBlock s.heap a with
  | none => s
  | some blk =>
    addMarkFree
      (addListsSet
        (addLinkHead (addFirstWrite s a blk)
          (s.freeLists.getD (get_size_class blk.size) none) a)
        (get_size_class blk.size) a) a

/-- One pass of the while loop in find_free_block: follow next pointers
    from cur until a free block of sufficient size is found.  The fuel
    bounds the walk; it is always instantiated above the number of blocks,
    so it never runs out on an acyclic list. -/
def walkList (h : Heap) : Nat → Option Nat → Nat → Option Nat
  | 0, _, _ => none
  | _ + 1, none, _ => none
  | fuel + 1, some a, need =>
    match getBlock h a with
    | none => none
    | some blk =>
      if blk.is_free = true ∧ need ≤ blk.size then some a
      else walkList h fuel blk.next need

/-- The outer for loop of find_free_block over the ascending size classes. -/
def searchClasses (s : MState) (need : Nat) : List Nat → Option Nat
  | [] => none
  | i :: rest =>
    match walkList s.heap (s.heap.length + 1) (s.freeLists.getD i none) need with
    | some a => some a
    | none => searchClasses s need rest

/-- find_free_block from allocator.c. -/
def find_free_block (s : MState) (size : Nat) : Option Nat :=
  searchClasses s size
    (List.range' (get_size_class size) (NUM_SIZE_CLASSES - get_size_class size))

/-- split_block from allocator.c. -/
def split_block (s : MState) (a : Nat) (size : Nat) : MState :=
  let total_size := totalBlockSize size
  match getBlock s.heap a with
  | none => s
  | some blk =>
    if total_size + HDR + MIN_BLOCK_SIZE ≤ blk.size then
      let nb : Block :=
        { size := blk.size - total_size, next := none, prev := none,
          is_free := true, is_mmap := false }
      let s1 := { s with heap := addBlock s.heap (a + total_size) nb }
      let s2 :=
        match getBlock s1.heap a with
        | some cur => { s1 with heap := setBlock s1.heap a { cur with size := total_size } }
        | none => s1
      let s3 := add_to_free_list s2 (a + total_size)
      { s3 with stats := { s3.stats with num_splits := wrap64 (s3.stats.num_splits + 1) } }
    else s

/-- The growth amount expand_heap requests from sbrk:
    max(BRK_INCREMENT, align_size(size)). -/
def expandAllocSize (size : Nat) : Nat :=
  if size < BRK_INCREMENT then BRK_INCREMENT else align_size size

/-- expand_heap from allocator.c: sbrk the growth amount and lay a single
    free block over the fresh region. -/
def expand_heap (s : MState) (size : Nat) : Option Nat × MState :=
  let r := takeOk s.brkOk
  if r.1 = false then (none, { s with brkOk := r.2 })
  else
    (some s.heapEnd,
      { s with
        brkOk := r.2
        heapEnd := s.heapEnd + expandAllocSize size
        heap := addBlock s.heap s.heapEnd
          { size := expandAllocSize size, next := none, prev := none,
            is_free := true, is_mmap := false } })

/-- The body of one coalesce step: unlink the successor, grow the block,
    absorb the successor header, count the coalesce. -/
def coalesceStep (s : MState) (a bEnd : Nat) : MState :=
  let s1 := remove_from_free_list s bEnd
  let s2 :=
    match getBlock s1.heap a, getBlock s1.heap bEnd with
    | some blkA, some nb1 =>
      { s1 with heap := setBlock s1.heap a { blkA with size := wrap64 (blkA.size + nb1.size) } }
    | _, _ => s1
  { s2 with
    heap := delBlock s2.heap bEnd
    stats := { s2.stats with num_coalesces := wrap64 (s2.stats.num_coalesces + 1) } }

/-! ### Preservation lemmas for the internal heap transformers -/

/-- The non-pointer header fields (size, is_free, is_mmap) stored at an
    address: the part of a header the free-list surgery never touches. -/
def hdrCore (h : Heap) (k : Nat) : Option (Nat × Bool × Bool) :=
  (getBlock h k).map (fun b => (b.size, b.is_free, b.is_mmap))

/-- A state transformer that can only rewire free-list pointers: it keeps
    every header's core fields, the heap's key set and length, and every
    state component except heap and freeLists. -/
def PtrSurgery (s s' : MState) : Prop :=
  (∀ k, hdrCore s'.heap k = hdrCore s.heap k) ∧
  (∀ k, (getBlock s'.heap k).isSome = (getBlock s.heap k).isSome) ∧
  s'.heap.length = s.heap.length ∧
  s'.stats = s.stats ∧ s'.heapEnd = s.heapEnd ∧ s'.mapped = s.mapped ∧
  s'.nextMapAddr = s.nextMapAddr ∧ s'.mem = s.mem ∧
  s'.brkOk = s.brkOk ∧ s'.mmapOk = s.mmapOk

/-- The recursion of coalesce from allocator.c, bounded by explicit fuel.
    Every merge absorbs one successor header, so the number of headers in
    the heap bounds the recursion depth; coalesce below instantiates the
    fuel with exactly that number, which never runs out. -/
def coalesceFuel : Nat → MState → Nat → MState
  | 0, s, _ => s
  | fuel + 1, s, a =>
    match getBlock s.heap a with
    | none => s
    | some blk =>
      if blk.is_mmap = true then s
      else if s.heapEnd ≤ a + blk.size then s
      else if s.heapEnd < a + blk.size + HDR then s
      else
        match getBlock s.heap (a + blk.size) with
        | none => s
        | some nb =>
          if nb.is_free = true ∧ nb.is_mmap = false then
            coalesceFuel fuel (coalesceStep s a (a + blk.size)) a
          else s

/-- coalesce from allocator.c. -/
def coalesce (s : MState) (a : Nat) : MState :=
  coalesceFuel s.heap.length s a

/-- The mmap fast path of mem_malloc for large total sizes. -/
def mallocMmap (s : MState) (total_size : Nat) : Option Nat × MState :=
  let r := takeOk s.mmapOk
  if r.1 = false then (none, { s with mmapOk := r.2 })
  else
    (some (s.nextMapAddr + HDR),
      { s with
        mmapOk := r.2
        mapped := addBlock s.mapped s.nextMapAddr
          { size := total_size, next := none, prev := none,
            is_free := false, is_mmap := true }
        nextMapAddr := s.nextMapAddr + total_size
        mem := memsetRange s.mem s.nextMapAddr total_size 0
        stats := { s.stats with
          total_allocated := wrap64 (s.stats.total_allocated + total_size)
          current_usage := wrap64 (s.stats.current_usage + total_size)
          num_allocations := wrap64 (s.stats.num_allocations + 1) } })

/-- The block->is_free = 0 statement of mem_malloc. -/
def mallocMarkUsed (s : MState) (a : Nat) : MState :=
  match getBlock s.heap a with
  | some blk => { s with heap := setBlock s.heap a { blk with is_free := false } }
  | none => s

/-- The heap state of mem_malloc just before the final stats update:
    the chosen block unlinked, split if oversized, and marked used. -/
def mallocS4 (s1 : MState) (a size : Nat) : MState :=
  mallocMarkUsed (split_block (remove_from_free_list s1 a) a size) a

/-- The final stats update of a successful heap-path mem_malloc: the
    block's post-split size is added to total_allocated and
    current_usage. -/
def mallocAccount (s4 : MState) (x : Nat) : MState :=
  { s4 with stats := { s4.stats with
      total_allocated := wrap64 (s4.stats.total_allocated + x)
      current_usage := wrap64 (s4.stats.current_usage + x)
      num_allocations := wrap64 (s4.stats.num_allocations + 1) } }

/-- The tail of mem_malloc once a heap block has been chosen: unlink it,
    split it if oversized, mark it used, account its final size. -/
def mallocFinish (s1 : MState) (a size : Nat) : Option Nat × MState :=
  match getBlock (mallocS4 s1 a size).heap a with
  | none => (none, mallocS4 s1 a size)
  | some blk => (some (a + HDR), mallocAccount (mallocS4 s1 a size) blk.size)

/-- mem_malloc from allocator.c. -/
def mem_malloc (s : MState) (size : Nat) : Option Nat × MState :=
  if size = 0 then (none, s)
  else
    if MMAP_THRESHOLD ≤ totalBlockSize size then mallocMmap s (totalBlockSize size)
    else
      match find_free_block s (totalBlockSize size) with
      | some a => mallocFinish s a size
      | none =>
        match expand_heap s (totalBlockSize size) with
        | (none, s1) => (none, s1)
        | (some a, s1) => mallocFinish s1 a size

/-- The three statistics updates at the top of mem_free. -/
def freeAccount (s : MState) (x : Nat) : MState :=
  { s with stats := { s.stats with
      total_freed := wrap64 (s.stats.total_freed + x)
      current_usage := sub64 s.stats.current_usage x
      num_frees := wrap64 (s.stats.num_frees + 1) } }

/-- mem_free from allocator.c.  The block->is_free = 1 statement is the
    same memory write as in add_to_free_list, hence addMarkFree. -/
def mem_free (s : MState) (ptr : Nat) : MState :=
  if ptr = 0 then s
  else
    match lookupAnyBlock s (ptr - HDR) with
    | none => s
    | some blk =>
      if blk.is_mmap = true then
        { freeAccount s blk.size with mapped := delBlock s.mapped (ptr - HDR) }
      else
        add_to_free_list
          (coalesce (addMarkFree (freeAccount s blk.size) (ptr - HDR)) (ptr - HDR))
          (ptr - HDR)

/-- mem_calloc from allocator.c. -/
def mem_calloc (s : MState) (nmemb size : Nat) : Option Nat × MState :=
  if nmemb = 0 ∨ size = 0 then (none, s)
  else
    let total := wrap64 (nmemb * size)
    if total / nmemb ≠ size then (none, s)
    else
      match mem_malloc s total with
      | (none, s1) => (none, s1)
      | (some p, s1) => (some p, { s1 with mem := memsetRange s1.mem p total 0 })

/-- mem_realloc from allocator.c. -/
def mem_realloc (s : MState) (ptr size : Nat) : Option Nat × MState :=
  if ptr = 0 then mem_malloc s size
  else if size = 0 then (none, mem_free s ptr)
  else
    let a := ptr - HDR
    match lookupAnyBlock s a with
    | none => (none, s)
    | some blk =>
      let old_size := sub64 blk.size HDR
      if size ≤ old_size then (some ptr, s)
      else
        match mem_malloc s size with
        | (none, s1) => (none, s1)
        | (some np, s1) =>
          let s2 := { s1 with mem := memcpyRange s1.mem np ptr old_size }
          let s3 := mem_free s2 ptr
          (some np, s3)

/-- mem_reset from allocator.c: zero the statistics and clear the free
    lists, keeping the heap itself. -/
def mem_reset (s : MState) : MState :=
  { s with stats := Stats.zero, freeLists := List.replicate 10 none }

/-- A public operation of the engine, with its concrete arguments. -/
inductive Op where
  | malloc (n : Nat)
  | free (p : Nat)
  | calloc (n m : Nat)
  | realloc (p n : Nat)
  | reset

/-- Execute one public operation (the returned pointer is dropped). -/
def step (s : MState) : Op → MState
  | Op.malloc n => (mem_malloc s n).2
  | Op.free p => mem_free s p
  | Op.calloc n m => (mem_calloc s n m).2
  | Op.realloc p n => (mem_realloc s p n).2
  | Op.reset => mem_reset s

/-- Execute a sequence of public operations. -/
def run (ops : List Op) (s : MState) : MState := ops.foldl step s

/-- Collect the addresses reachable from one free-list head by following
    next pointers (fuel-bounded like walkList). -/
def collectList (h : Heap) : Nat → Option Nat → List Nat
  | 0, _ => []
  | _ + 1, none => []
  | fuel + 1, some a =>
    match getBlock h a with
    | none => []
    | some blk => a :: collectList h fuel blk.next

/-- Every address reachable from any of the ten free-list heads. -/
def freeListMembers (s : MState) : List Nat :=
  (List.range NUM_SIZE_CLASSES).foldl
    (fun acc i => acc ++ collectList s.heap (s.heap.length + 1) (s.freeLists.getD i none)) []

/-! ### The statistics identity -/

/-- The statistics identity of the spec, in wrapping size_t arithmetic:
    current_usage = total_allocated - total_freed. -/
def statsInv (st : Stats) : Prop :=
  (st.current_usage + st.total_freed) % W = st.total_allocated % W

/-- Equality of all state components that splitting and coalescing leave
    untouched (everything except heap, free lists and their own
    counters). -/
def MiscEq (s s' : MState) : Prop :=
  s'.stats.total_allocated = s.stats.total_allocated ∧
  s'.stats.total_freed = s.stats.total_freed ∧
  s'.stats.current_usage = s.stats.current_usage ∧
  s'.stats.num_allocations = s.stats.num_allocations ∧
  s'.stats.num_frees = s.stats.num_frees ∧
  s'.stats.num_splits = s.stats.num_splits ∧
  s'.heapEnd = s.heapEnd ∧
  s'.mapped = s.mapped ∧
  s'.nextMapAddr = s.nextMapAddr ∧
  s'.mem = s.mem ∧
  s'.brkOk = s.brkOk ∧
  s'.mmapOk = s.mmapOk

/-! ### Scenario states used by the concrete claims -/

/-- C1 scenario: two 64 KiB-filling allocations, free the first, then a
    request too large for the remaining free block. -/
def c1State : MState :=
  run [Op.malloc 65504, Op.malloc 65504, Op.free 32, Op.malloc 70000] initState

/-- Spec scenario 2: three 100-byte allocations, released middle, first,
    last. -/
def c7State : MState :=
  run [Op.malloc 100, Op.malloc 100, Op.malloc 100,
    Op.free 176, Op.free 32, Op.free 320] initState

/-- Spec scenario 3, first step: one 100-byte allocation from a fresh
    heap. -/
def c8StateA : MState := run [Op.malloc 100] initState

/-- Spec scenario 3, complete: allocate 100 bytes, free, allocate 50. -/
def c8State : MState := run [Op.free 32, Op.malloc 50] c8StateA

/-- Two adjacent allocations with the first freed before the second. -/
def c2State : MState :=
  run [Op.malloc 100, Op.malloc 100, Op.free 32, Op.free 176] initState

/-- One live 100-byte allocation, with the OS set to refuse the next
    heap extension. -/
def c5FailState : MState := { (mem_malloc initState 100).2 with brkOk := [false] }

/-! ### Well-formed heaps and the forward-coalescing postcondition -/

/-- A well-formed heap with respect to the heap end E: every block has a
    positive size and lies entirely inside the heap region. -/
def WfH (E : Nat) (h : Heap) : Prop :=
  ∀ q ∈ h, 0 < (q.2).size ∧ q.1 + (q.2).size ≤ E

theorem getBlock_setBlock_self (h : Heap) (a : Nat) (b : Block) :
    getBlock (setBlock h a b) a = (getBlock h a).map (fun _ => b) := by
  induction h with
  | nil => rfl
  | cons p t ih =>
    by_cases hp : p.1 = a
    · simp [getBlock, setBlock, hp]
    · simp [getBlock, setBlock, hp, ih]

theorem getBlock_setBlock_other (h : Heap) (a k : Nat) (b : Block) (hk : k ≠ a) :
    getBlock (setBlock h a b) k = getBlock h k := by
  induction h with
  | nil => rfl
  | cons p t ih =>
    by_cases hp : p.1 = a
    · have : ¬ (a = k) := fun hh => hk hh.symm
      simp [getBlock, setBlock, hp, this, ih]
    · by_cases hpk : p.1 = k
      · simp [getBlock, setBlock, hp, hpk, hk]
      · simp [getBlock, setBlock, hp, hpk, ih]

theorem isSome_getBlock_setBlock (h : Heap) (a k : Nat) (b : Block) :
    (getBlock (setBlock h a b) k).isSome = (getBlock h k).isSome := by
  by_cases hk : k = a
  · subst hk; rw [getBlock_setBlock_self]; cases getBlock h k <;> rfl
  · rw [getBlock_setBlock_other h a k b hk]

theorem length_setBlock (h : Heap) (a : Nat) (b : Block) :
    (setBlock h a b).length = h.length := by
  induction h with
  | nil => rfl
  | cons p t ih => simp [setBlock, ih]

theorem getBlock_delBlock_self (h : Heap) (a : Nat) :
    getBlock (delBlock h a) a = none := by
  induction h with
  | nil => rfl
  | cons p t ih =>
    by_cases hp : p.1 = a
    · simpa [delBlock, hp] using ih
    · simp [getBlock, delBlock, hp, ih]

theorem getBlock_delBlock_other (h : Heap) (a k : Nat) (hk : k ≠ a) :
    getBlock (delBlock h a) k = getBlock h k := by
  induction h with
  | nil => rfl
  | cons p t ih =>
    by_cases hp : p.1 = a
    · have : ¬ (p.1 = k) := by rw [hp]; exact fun hh => hk hh.symm
      simp [getBlock, delBlock, hp, this, ih, Ne.symm hk]
    · by_cases hpk : p.1 = k
      · simp [getBlock, delBlock, hp, hpk, hk]
      · simp [getBlock, delBlock, hp, hpk, ih]

theorem length_delBlock_le (h : Heap) (a : Nat) :
    (delBlock h a).length ≤ h.length := by
  induction h with
  | nil => simp [delBlock]
  | cons p t ih =>
    by_cases hp : p.1 = a
    · simp only [delBlock, hp, if_true, List.length_cons]; omega
    · simp only [delBlock, hp, if_false, List.length_cons]; omega

theorem length_delBlock_lt (h : Heap) (a : Nat)
    (ha : (getBlock h a).isSome = true) :
    (delBlock h a).length < h.length := by
  induction h with
  | nil => simp [getBlock] at ha
  | cons p t ih =>
    by_cases hp : p.1 = a
    · simp only [delBlock, hp, if_true, List.length_cons]
      have := length_delBlock_le t a
      omega
    · simp only [getBlock, hp, if_false] at ha
      simp only [delBlock, hp, if_false, List.length_cons]
      exact Nat.succ_lt_succ (ih ha)

theorem getBlock_addBlock_self (h : Heap) (a : Nat) (b : Block) :
    getBlock (addBlock h a b) a = some b := by
  simp [getBlock, addBlock]

theorem getBlock_addBlock_other (h : Heap) (a k : Nat) (b : Block) (hk : k ≠ a) :
    getBlock (addBlock h a b) k = getBlock h k := by
  have : ¬ (a = k) := fun hh => hk hh.symm
  simp only [getBlock, addBlock, this, if_false]
  exact getBlock_delBlock_other h a k hk

theorem hdrCore_setBlock (h : Heap) (y : Nat) (b b' : Block)
    (hb : getBlock h y = some b) (hs : b'.size = b.size)
    (hf : b'.is_free = b.is_free) (hm : b'.is_mmap = b.is_mmap) (k : Nat) :
    hdrCore (setBlock h y b') k = hdrCore h k := by
  by_cases hk : k = y
  · subst hk
    simp [hdrCore, getBlock_setBlock_self, hb, hs, hf, hm]
  · simp [hdrCore, getBlock_setBlock_other h y k b' hk]

theorem ptrSurgery_refl (s : MState) : PtrSurgery s s :=
  ⟨fun _ => rfl, fun _ => rfl, rfl, rfl, rfl,
   rfl, rfl, rfl, rfl, rfl⟩

theorem ptrSurgery_trans {s1 s2 s3 : MState}
    (h1 : PtrSurgery s1 s2) (h2 : PtrSurgery s2 s3) : PtrSurgery s1 s3 := by
  obtain ⟨a1, b1, c1, d1, e1, f1, g1, i1, j1, k1⟩ := h1
  obtain ⟨a2, b2, c2, d2, e2, f2, g2, i2, j2, k2⟩ := h2
  exact ⟨fun k => (a2 k).trans (a1 k), fun k => (b2 k).trans (b1 k), c2.trans c1,
    d2.trans d1, e2.trans e1, f2.trans f1, g2.trans g1, i2.trans i1,
    j2.trans j1, k2.trans k1⟩

theorem ptrSurgery_setBlock (s : MState) (y : Nat) (b b' : Block)
    (hb : getBlock s.heap y = some b) (hs : b'.size = b.size)
    (hf : b'.is_free = b.is_free) (hm : b'.is_mmap = b.is_mmap) :
    PtrSurgery s { s with heap := setBlock s.heap y b' } := by
  refine ⟨fun k => hdrCore_setBlock s.heap y b b' hb hs hf hm k,
    fun k => isSome_getBlock_setBlock s.heap y k b', length_setBlock s.heap y b',
    rfl, rfl, rfl, rfl, rfl, rfl, rfl⟩

theorem ptrSurgery_setLists (s : MState) (l : List (Option Nat)) :
    PtrSurgery s { s with freeLists := l } :=
  ⟨fun _ => rfl, fun _ => rfl, rfl, rfl, rfl,
   rfl, rfl, rfl, rfl, rfl⟩

theorem rmUnlinkPrev_surgery (s : MState) (ci : Nat) (pv nx : Option Nat) :
    PtrSurgery s (rmUnlinkPrev s ci pv nx) := by
  unfold rmUnlinkPrev
  split
  · split
    · next pb hpb => exact ptrSurgery_setBlock s _ pb _ hpb rfl rfl rfl
    · exact ptrSurgery_refl s
  · exact ptrSurgery_setLists s _

theorem rmUnlinkNext_surgery (s : MState) (a : Nat) :
    PtrSurgery s (rmUnlinkNext s a) := by
  unfold rmUnlinkNext
  split
  · split
    · split
      · next nb hnb => exact ptrSurgery_setBlock s _ nb _ hnb rfl rfl rfl
      · exact ptrSurgery_refl s
    · exact ptrSurgery_refl s
  · exact ptrSurgery_refl s

theorem rmClearLinks_surgery (s : MState) (a : Nat) :
    PtrSurgery s (rmClearLinks s a) := by
  unfold rmClearLinks
  split
  · next blk2 hblk2 => exact ptrSurgery_setBlock s _ blk2 _ hblk2 rfl rfl rfl
  · exact ptrSurgery_refl s

theorem remove_surgery (s : MState) (a : Nat) :
    PtrSurgery s (remove_from_free_list s a) := by
  unfold remove_from_free_list
  split
  · exact ptrSurgery_refl s
  · exact ptrSurgery_trans (ptrSurgery_trans (rmUnlinkPrev_surgery s _ _ _)
      (rmUnlinkNext_surgery _ a)) (rmClearLinks_surgery _ a)

theorem addLinkHead_surgery (s : MState) (hd : Option Nat) (a : Nat) :
    PtrSurgery s (addLinkHead s hd a) := by
  unfold addLinkHead
  split
  · split
    · next hb hhb => exact ptrSurgery_setBlock s _ hb _ hhb rfl rfl rfl
    · exact ptrSurgery_refl s
  · exact ptrSurgery_refl s

theorem heap_length_remove (s : MState) (a : Nat) :
    (remove_from_free_list s a).heap.length = s.heap.length :=
  (remove_surgery s a).2.2.1

theorem isSome_getBlock_remove (s : MState) (a k : Nat) :
    (getBlock (remove_from_free_list s a).heap k).isSome = (getBlock s.heap k).isSome :=
  (remove_surgery s a).2.1 k

theorem coalesceStep_heap_lt (s : MState) (a bEnd : Nat)
    (hb : (getBlock s.heap bEnd).isSome = true) :
    (coalesceStep s a bEnd).heap.length < s.heap.length := by
  unfold coalesceStep
  dsimp only
  have h1 : (getBlock (remove_from_free_list s bEnd).heap bEnd).isSome = true := by
    rw [isSome_getBlock_remove]; exact hb
  have hl1 : (remove_from_free_list s bEnd).heap.length = s.heap.length :=
    heap_length_remove s bEnd
  split
  · next blkA nb1 heq1 heq2 =>
    have h2 : (getBlock (setBlock (remove_from_free_list s bEnd).heap a
        { blkA with size := wrap64 (blkA.size + nb1.size) }) bEnd).isSome = true := by
      rw [isSome_getBlock_setBlock]; exact h1
    have := length_delBlock_lt _ bEnd h2
    simpa [length_setBlock, hl1] using this
  · next hne =>
    have := length_delBlock_lt _ bEnd h1
    simpa [hl1] using this

/-! ### Lemmas about add_to_free_list, split_block, the search and
     expansion -/

theorem addMarkFree_misc (s : MState) (a : Nat) :
    (addMarkFree s a).stats = s.stats ∧
    (addMarkFree s a).heapEnd = s.heapEnd ∧
    (addMarkFree s a).mapped = s.mapped ∧
    (addMarkFree s a).nextMapAddr = s.nextMapAddr ∧
    (addMarkFree s a).mem = s.mem ∧
    (addMarkFree s a).brkOk = s.brkOk ∧
    (addMarkFree s a).mmapOk = s.mmapOk ∧
    (addMarkFree s a).heap.length = s.heap.length ∧
    (addMarkFree s a).freeLists = s.freeLists := by
  unfold addMarkFree
  split
  all_goals simp [length_setBlock]

theorem addMarkFree_getBlock_other (s : MState) (a k : Nat) (hk : k ≠ a) :
    getBlock (addMarkFree s a).heap k = getBlock s.heap k := by
  unfold addMarkFree
  split
  · exact getBlock_setBlock_other s.heap a k _ hk
  · rfl

theorem addMarkFree_hdrCore_self (s : MState) (a : Nat) (b : Block)
    (hb : getBlock s.heap a = some b) :
    hdrCore (addMarkFree s a).heap a = some (b.size, true, b.is_mmap) := by
  unfold addMarkFree
  rw [hb]
  simp [hdrCore, getBlock_setBlock_self, hb]

theorem addMarkFree_isSome (s : MState) (a k : Nat) :
    (getBlock (addMarkFree s a).heap k).isSome = (getBlock s.heap k).isSome := by
  unfold addMarkFree
  split
  · exact isSome_getBlock_setBlock s.heap a k _
  · rfl

theorem addFirstWrite_surgery (s : MState) (a : Nat) (blk : Block)
    (hblk : getBlock s.heap a = some blk) :
    PtrSurgery s (addFirstWrite s a blk) := by
  unfold addFirstWrite
  exact ptrSurgery_setBlock s a blk _ hblk rfl rfl rfl

theorem addListsSet_surgery (s : MState) (ci a : Nat) :
    PtrSurgery s (addListsSet s ci a) := by
  unfold addListsSet
  exact ptrSurgery_setLists s _

/-- add_to_free_list is a pointer surgery followed by the is_free marking
    of the block itself. -/
theorem add_decomp (s : MState) (a : Nat) :
    (getBlock s.heap a = none ∧ add_to_free_list s a = s) ∨
    (∃ blk sMid, getBlock s.heap a = some blk ∧
      add_to_free_list s a = addMarkFree sMid a ∧ PtrSurgery s sMid) := by
  cases hblk : getBlock s.heap a with
  | none =>
    left
    refine ⟨rfl, ?_⟩
    unfold add_to_free_list
    rw [hblk]
  | some blk =>
    right
    refine ⟨blk,
      addListsSet
        (addLinkHead (addFirstWrite s a blk)
          (s.freeLists.getD (get_size_class blk.size) none) a)
        (get_size_class blk.size) a, rfl, ?_, ?_⟩
    · unfold add_to_free_list
      rw [hblk]
    · exact ptrSurgery_trans (ptrSurgery_trans (addFirstWrite_surgery s a blk hblk)
        (addLinkHead_surgery (addFirstWrite s a blk)
          (s.freeLists.getD (get_size_class blk.size) none) a))
        (addListsSet_surgery
          (addLinkHead (addFirstWrite s a blk)
            (s.freeLists.getD (get_size_class blk.size) none) a)
          (get_size_class blk.size) a)

theorem add_misc (s : MState) (a : Nat) :
    (add_to_free_list s a).stats = s.stats ∧
    (add_to_free_list s a).heapEnd = s.heapEnd ∧
    (add_to_free_list s a).mapped = s.mapped ∧
    (add_to_free_list s a).nextMapAddr = s.nextMapAddr ∧
    (add_to_free_list s a).mem = s.mem ∧
    (add_to_free_list s a).brkOk = s.brkOk ∧
    (add_to_free_list s a).mmapOk = s.mmapOk ∧
    (add_to_free_list s a).heap.length = s.heap.length := by
  rcases add_decomp s a with ⟨_, heq⟩ | ⟨blk, sMid, _, heq, hsurg⟩
  · rw [heq]; exact ⟨rfl, rfl, rfl, rfl, rfl, rfl, rfl, rfl⟩
  · rw [heq]
    obtain ⟨_, _, c, d, e, f, g, i, j, k⟩ := hsurg
    obtain ⟨m1, m2, m3, m4, m5, m6, m7, m8, _⟩ := addMarkFree_misc sMid a
    exact ⟨m1.trans d, m2.trans e, m3.trans f, m4.trans g, m5.trans i,
      m6.trans j, m7.trans k, m8.trans c⟩

theorem isSome_getBlock_add (s : MState) (a k : Nat) :
    (getBlock (add_to_free_list s a).heap k).isSome = (getBlock s.heap k).isSome := by
  rcases add_decomp s a with ⟨_, heq⟩ | ⟨blk, sMid, _, heq, hsurg⟩
  · rw [heq]
  · rw [heq, addMarkFree_isSome]
    exact hsurg.2.1 k

theorem add_hdrCore_other (s : MState) (a k : Nat) (hk : k ≠ a) :
    hdrCore (add_to_free_list s a).heap k = hdrCore s.heap k := by
  rcases add_decomp s a with ⟨_, heq⟩ | ⟨blk, sMid, _, heq, hsurg⟩
  · rw [heq]
  · rw [heq, hdrCore, addMarkFree_getBlock_other sMid a k hk, ← hdrCore]
    exact hsurg.1 k

theorem add_hdrCore_self (s : MState) (a : Nat) (blk : Block)
    (hblk : getBlock s.heap a = some blk) :
    hdrCore (add_to_free_list s a).heap a = some (blk.size, true, blk.is_mmap) := by
  rcases add_decomp s a with ⟨hnone, _⟩ | ⟨blkX, sMid, _, heq, hsurg⟩
  · rw [hblk] at hnone; cases hnone
  · have hcore : hdrCore sMid.heap a = some (blk.size, blk.is_free, blk.is_mmap) := by
      rw [hsurg.1 a, hdrCore, hblk]; rfl
    have hex : ∃ b, getBlock sMid.heap a = some b ∧
        b.size = blk.size ∧ b.is_mmap = blk.is_mmap := by
      rcases hcb : getBlock sMid.heap a with _ | b
      · rw [hdrCore, hcb] at hcore; cases hcore
      · rw [hdrCore, hcb] at hcore
        have h2 := Option.some.inj hcore
        exact ⟨b, rfl, congrArg Prod.fst h2, congrArg (fun q => q.2.2) h2⟩
    obtain ⟨b, hb, hbs, hbm⟩ := hex
    rw [heq, addMarkFree_hdrCore_self sMid a b hb, hbs, hbm]

theorem isSome_getBlock_addBlock_mono (h : Heap) (x k : Nat) (b : Block)
    (hk : (getBlock h k).isSome = true) :
    (getBlock (addBlock h x b) k).isSome = true := by
  by_cases hkx : k = x
  · subst hkx; rw [getBlock_addBlock_self]; rfl
  · rw [getBlock_addBlock_other h x k b hkx]; exact hk

theorem split_stats (s : MState) (a n : Nat) :
    (split_block s a n).stats.total_allocated = s.stats.total_allocated ∧
    (split_block s a n).stats.total_freed = s.stats.total_freed ∧
    (split_block s a n).stats.current_usage = s.stats.current_usage ∧
    (split_block s a n).stats.num_allocations = s.stats.num_allocations ∧
    (split_block s a n).stats.num_frees = s.stats.num_frees ∧
    (split_block s a n).stats.num_coalesces = s.stats.num_coalesces ∧
    (split_block s a n).heapEnd = s.heapEnd ∧
    (split_block s a n).mapped = s.mapped ∧
    (split_block s a n).nextMapAddr = s.nextMapAddr ∧
    (split_block s a n).mem = s.mem ∧
    (split_block s a n).brkOk = s.brkOk ∧
    (split_block s a n).mmapOk = s.mmapOk := by
  unfold split_block
  dsimp only
  repeat' split
  all_goals simp [add_misc]

theorem split_isSome_mono (s : MState) (a n k : Nat)
    (hk : (getBlock s.heap k).isSome = true) :
    (getBlock (split_block s a n).heap k).isSome = true := by
  unfold split_block
  dsimp only
  repeat' split
  all_goals
    first
      | exact hk
      | (simp only [isSome_getBlock_add, isSome_getBlock_setBlock]
         exact isSome_getBlock_addBlock_mono _ _ _ _ hk)

theorem split_hdrCore_self (s : MState) (a n : Nat) (blk : Block)
    (hblk : getBlock s.heap a = some blk) (htot : 0 < totalBlockSize n) :
    ∃ sz, hdrCore (split_block s a n).heap a = some (sz, blk.is_free, blk.is_mmap) ∧
      (sz = blk.size ∨ sz = totalBlockSize n) := by
  unfold split_block
  rw [hblk]
  dsimp only
  split
  · have hne : a ≠ a + totalBlockSize n := by omega
    have h1 : getBlock (addBlock s.heap (a + totalBlockSize n)
        { size := blk.size - totalBlockSize n, next := none, prev := none,
          is_free := true, is_mmap := false }) a = some blk := by
      rw [getBlock_addBlock_other _ _ _ _ hne]; exact hblk
    rw [h1]
    dsimp only
    refine ⟨totalBlockSize n, ?_, Or.inr rfl⟩
    rw [add_hdrCore_other _ _ _ hne, hdrCore, getBlock_setBlock_self, h1]
    rfl
  · exact ⟨blk.size, by rw [hdrCore, hblk]; rfl, Or.inl rfl⟩

theorem walkList_success (h : Heap) (fuel : Nat) :
    ∀ cur need a, walkList h fuel cur need = some a →
    ∃ blk, getBlock h a = some blk ∧ blk.is_free = true ∧ need ≤ blk.size := by
  induction fuel with
  | zero => intro cur need a hw; cases hw
  | succ f ih =>
    intro cur need a hw
    cases cur with
    | none => cases hw
    | some x =>
      unfold walkList at hw
      cases hgb : getBlock h x with
      | none => rw [hgb] at hw; cases hw
      | some blk =>
        rw [hgb] at hw
        dsimp only at hw
        by_cases hc : blk.is_free = true ∧ need ≤ blk.size
        · rw [if_pos hc] at hw
          obtain rfl : x = a := Option.some.inj hw
          exact ⟨blk, hgb, hc.1, hc.2⟩
        · rw [if_neg hc] at hw
          exact ih blk.next need a hw

theorem searchClasses_success (s : MState) (need : Nat) :
    ∀ l a, searchClasses s need l = some a →
    ∃ blk, getBlock s.heap a = some blk ∧ blk.is_free = true ∧ need ≤ blk.size := by
  intro l
  induction l with
  | nil => intro a hw; cases hw
  | cons i rest ih =>
    intro a hw
    unfold searchClasses at hw
    cases hk : walkList s.heap (s.heap.length + 1) (s.freeLists.getD i none) need with
    | some x =>
      rw [hk] at hw
      obtain rfl : x = a := Option.some.inj hw
      exact walkList_success s.heap _ _ need _ hk
    | none =>
      rw [hk] at hw
      exact ih a hw

theorem find_free_block_success (s : MState) (size a : Nat)
    (hf : find_free_block s size = some a) :
    ∃ blk, getBlock s.heap a = some blk ∧ blk.is_free = true ∧ size ≤ blk.size :=
  searchClasses_success s size _ a hf

theorem expand_heap_cases (s : MState) (n : Nat) :
    ((takeOk s.brkOk).1 = false ∧
      expand_heap s n = (none, { s with brkOk := (takeOk s.brkOk).2 })) ∨
    ((takeOk s.brkOk).1 = true ∧ ∃ s1, expand_heap s n = (some s.heapEnd, s1) ∧
      s1.heap = addBlock s.heap s.heapEnd
        { size := expandAllocSize n, next := none, prev := none,
          is_free := true, is_mmap := false } ∧
      s1.heapEnd = s.heapEnd + expandAllocSize n ∧
      s1.stats = s.stats ∧ s1.mapped = s.mapped ∧ s1.nextMapAddr = s.nextMapAddr ∧
      s1.mem = s.mem ∧ s1.mmapOk = s.mmapOk ∧ s1.freeLists = s.freeLists) := by
  unfold expand_heap
  dsimp only
  by_cases hb : (takeOk s.brkOk).1 = false
  · left; rw [if_pos hb]; exact ⟨hb, rfl⟩
  · right
    rw [if_neg hb]
    refine ⟨?_, _, rfl, rfl, rfl, rfl, rfl, rfl, rfl, rfl, rfl⟩
    revert hb; cases (takeOk s.brkOk).1 <;> simp

/-! ### Arithmetic facts about the size rounding -/

theorem wrap64_small (x : Nat) (hx : x < W) : wrap64 x = x :=
  Nat.mod_eq_of_lt hx

theorem align_size_lt_W (x : Nat) : align_size x < W := by
  unfold align_size
  have h1 : wrap64 (x + 15) / 16 * 16 ≤ wrap64 (x + 15) := Nat.div_mul_le_self _ _
  have h2 : wrap64 (x + 15) < W := Nat.mod_lt _ (by unfold W; positivity)
  omega

theorem align_size_ge (x : Nat) (hx : x + 15 < W) : x ≤ align_size x := by
  unfold align_size wrap64
  rw [Nat.mod_eq_of_lt hx]
  have := Nat.div_add_mod (x + 15) 16
  have h16 : (x + 15) % 16 < 16 := Nat.mod_lt _ (by omega)
  omega

theorem totalBlockSize_ge (n : Nat) (h : n + 47 < W) : n + HDR ≤ totalBlockSize n := by
  unfold totalBlockSize HDR
  rw [wrap64_small (n + 32) (by omega)]
  exact align_size_ge (n + 32) (by omega)

theorem totalBlockSize_lt_W (n : Nat) : totalBlockSize n < W :=
  align_size_lt_W _

theorem expandAllocSize_ge (n : Nat) (hn : n + 15 < W) : n ≤ expandAllocSize n := by
  unfold expandAllocSize
  split
  · unfold BRK_INCREMENT at *; omega
  · exact align_size_ge n hn

theorem totalBlockSize_le (n : Nat) : totalBlockSize n ≤ W - 16 := by
  unfold totalBlockSize align_size
  have h1 : wrap64 (wrap64 (n + HDR) + 15) ≤ W - 1 := by
    have := Nat.mod_lt (wrap64 (n + HDR) + 15) (y := W) (by unfold W; positivity)
    unfold wrap64 at *
    omega
  have h2 : wrap64 (wrap64 (n + HDR) + 15) / 16 ≤ (W - 1) / 16 :=
    Nat.div_le_div_right h1
  calc wrap64 (wrap64 (n + HDR) + 15) / 16 * 16 ≤ (W - 1) / 16 * 16 :=
        Nat.mul_le_mul_right 16 h2
    _ = W - 16 := by unfold W; norm_num

/-! ### Characterization of mem_malloc -/

theorem mallocMarkUsed_misc (s : MState) (a : Nat) :
    (mallocMarkUsed s a).stats = s.stats ∧
    (mallocMarkUsed s a).heapEnd = s.heapEnd ∧
    (mallocMarkUsed s a).mapped = s.mapped ∧
    (mallocMarkUsed s a).nextMapAddr = s.nextMapAddr ∧
    (mallocMarkUsed s a).mem = s.mem ∧
    (mallocMarkUsed s a).brkOk = s.brkOk ∧
    (mallocMarkUsed s a).mmapOk = s.mmapOk ∧
    (mallocMarkUsed s a).freeLists = s.freeLists := by
  unfold mallocMarkUsed
  split
  all_goals exact ⟨rfl, rfl, rfl, rfl, rfl, rfl, rfl, rfl⟩

theorem mallocFinish_spec (s1 : MState) (a size : Nat)
    (ha : (getBlock s1.heap a).isSome = true) :
    ∃ blk s', mallocFinish s1 a size = (some (a + HDR), s') ∧
      getBlock s'.heap a = some blk ∧ blk.is_free = false ∧
      s'.stats.total_allocated = wrap64 (s1.stats.total_allocated + blk.size) ∧
      s'.stats.current_usage = wrap64 (s1.stats.current_usage + blk.size) ∧
      s'.stats.total_freed = s1.stats.total_freed ∧
      s'.heapEnd = s1.heapEnd ∧ s'.mapped = s1.mapped ∧
      s'.nextMapAddr = s1.nextMapAddr ∧ s'.mem = s1.mem ∧
      s'.brkOk = s1.brkOk ∧ s'.mmapOk = s1.mmapOk ∧
      (∀ blk0, 0 < totalBlockSize size → getBlock s1.heap a = some blk0 →
        blk.size = blk0.size ∨ blk.size = totalBlockSize size) := by
  obtain ⟨hrmCore, hrmSome, hrmLen, r1, r2, r3, r4, r5, r6, r7⟩ := remove_surgery s1 a
  have ha2 : (getBlock (remove_from_free_list s1 a).heap a).isSome = true := by
    rw [hrmSome a]; exact ha
  have ha3 : (getBlock (split_block (remove_from_free_list s1 a) a size).heap a).isSome
      = true := split_isSome_mono _ a size a ha2
  obtain ⟨b3, hb3⟩ : ∃ b3,
      getBlock (split_block (remove_from_free_list s1 a) a size).heap a = some b3 := by
    rcases hx : getBlock (split_block (remove_from_free_list s1 a) a size).heap a with _ | b3
    · rw [hx] at ha3; cases ha3
    · exact ⟨b3, rfl⟩
  have hmark : mallocS4 s1 a size
      = { (split_block (remove_from_free_list s1 a) a size) with
            heap := setBlock (split_block (remove_from_free_list s1 a) a size).heap a
              { b3 with is_free := false } } := by
    unfold mallocS4 mallocMarkUsed
    rw [hb3]
  have hget4 : getBlock (mallocS4 s1 a size).heap a = some { b3 with is_free := false } := by
    rw [hmark]
    show getBlock (setBlock _ a _) a = _
    rw [getBlock_setBlock_self, hb3]
    rfl
  obtain ⟨m1, m2, m3, m4, m5, m6, m7, _⟩ :=
    mallocMarkUsed_misc (split_block (remove_from_free_list s1 a) a size) a
  obtain ⟨p1, p2, p3, p4, p5, p6, p7, p8, p9, p10, p11, p12⟩ :=
    split_stats (remove_from_free_list s1 a) a size
  have hm1 : (mallocS4 s1 a size).stats = (split_block (remove_from_free_list s1 a) a size).stats := m1
  refine ⟨{ b3 with is_free := false },
    mallocAccount (mallocS4 s1 a size) (Block.size { b3 with is_free := false }),
    ?_, ?_, rfl, ?_, ?_, ?_, ?_, ?_, ?_, ?_, ?_, ?_, ?_⟩
  · unfold mallocFinish
    rw [hget4]
  · exact hget4
  · show wrap64 ((mallocS4 s1 a size).stats.total_allocated + _) = _
    rw [hm1, p1, r1]
  · show wrap64 ((mallocS4 s1 a size).stats.current_usage + _) = _
    rw [hm1, p3, r1]
  · show (mallocS4 s1 a size).stats.total_freed = _
    rw [hm1, p2, r1]
  · show (mallocS4 s1 a size).heapEnd = _
    show (mallocMarkUsed _ a).heapEnd = _
    rw [m2, p7, r2]
  · show (mallocMarkUsed _ a).mapped = _
    rw [m3, p8, r3]
  · show (mallocMarkUsed _ a).nextMapAddr = _
    rw [m4, p9, r4]
  · show (mallocMarkUsed _ a).mem = _
    rw [m5, p10, r5]
  · show (mallocMarkUsed _ a).brkOk = _
    rw [m6, p11, r6]
  · show (mallocMarkUsed _ a).mmapOk = _
    rw [m7, p12, r7]
  · intro blk0 htot hblk0
    have hcore2 : hdrCore (remove_from_free_list s1 a).heap a
        = some (blk0.size, blk0.is_free, blk0.is_mmap) := by
      rw [hrmCore a, hdrCore, hblk0]; rfl
    obtain ⟨b2, hb2, hb2s⟩ : ∃ b2,
        getBlock (remove_from_free_list s1 a).heap a = some b2 ∧ b2.size = blk0.size := by
      rcases hx : getBlock (remove_from_free_list s1 a).heap a with _ | b2
      · rw [hdrCore, hx] at hcore2; cases hcore2
      · rw [hdrCore, hx] at hcore2
        have := Option.some.inj hcore2
        exact ⟨b2, rfl, congrArg Prod.fst this⟩
    obtain ⟨sz, hsz, hszor⟩ :=
      split_hdrCore_self (remove_from_free_list s1 a) a size b2 hb2 htot
    rw [hdrCore, hb3] at hsz
    have := Option.some.inj hsz
    have hb3sz : b3.size = sz := congrArg Prod.fst this
    show b3.size = blk0.size ∨ b3.size = totalBlockSize size
    rcases hszor with h | h
    · left
      rw [hb3sz, h, hb2s]
    · right
      rw [hb3sz, h]

theorem mallocMmap_some (s : MState) (t p : Nat) (s' : MState)
    (h : mallocMmap s t = (some p, s')) :
    (takeOk s.mmapOk).1 = true ∧ p = s.nextMapAddr + HDR ∧
    s' = { s with
      mmapOk := (takeOk s.mmapOk).2
      mapped := addBlock s.mapped s.nextMapAddr
        { size := t, next := none, prev := none, is_free := false, is_mmap := true }
      nextMapAddr := s.nextMapAddr + t
      mem := memsetRange s.mem s.nextMapAddr t 0
      stats := { s.stats with
        total_allocated := wrap64 (s.stats.total_allocated + t)
        current_usage := wrap64 (s.stats.current_usage + t)
        num_allocations := wrap64 (s.stats.num_allocations + 1) } } := by
  unfold mallocMmap at h
  dsimp only at h
  by_cases ho : (takeOk s.mmapOk).1 = false
  · rw [if_pos ho] at h
    cases h
  · rw [if_neg ho] at h
    have h1 := congrArg Prod.fst h
    have h2 := congrArg Prod.snd h
    dsimp only at h1 h2
    refine ⟨by revert ho; cases (takeOk s.mmapOk).1 <;> simp, (Option.some.inj h1).symm, h2.symm⟩

theorem mallocMmap_none (s : MState) (t : Nat) (s' : MState)
    (h : mallocMmap s t = (none, s')) :
    (takeOk s.mmapOk).1 = false ∧ s' = { s with mmapOk := (takeOk s.mmapOk).2 } := by
  unfold mallocMmap at h
  dsimp only at h
  by_cases ho : (takeOk s.mmapOk).1 = false
  · rw [if_pos ho] at h
    exact ⟨ho, (congrArg Prod.snd h).symm⟩
  · rw [if_neg ho] at h
    cases h

/-- Case analysis of a successful mem_malloc: either the mmap fast path
    was taken, or a heap block with sufficient room was chosen (from the
    free lists or from a fresh heap extension) and finished. -/
theorem mem_malloc_some (s : MState) (n p : Nat) (s' : MState)
    (h : mem_malloc s n = (some p, s')) :
    n ≠ 0 ∧
    ((MMAP_THRESHOLD ≤ totalBlockSize n ∧ mallocMmap s (totalBlockSize n) = (some p, s')) ∨
     (totalBlockSize n < MMAP_THRESHOLD ∧ ∃ a s1 blk0,
        getBlock s1.heap a = some blk0 ∧ blk0.is_free = true ∧
        totalBlockSize n ≤ blk0.size ∧
        mallocFinish s1 a n = (some p, s') ∧
        (s1 = s ∨ ((takeOk s.brkOk).1 = true ∧ a = s.heapEnd ∧
          s1.stats = s.stats ∧ s1.mapped = s.mapped ∧ s1.nextMapAddr = s.nextMapAddr ∧
          s1.mem = s.mem ∧ s1.mmapOk = s.mmapOk ∧ s1.freeLists = s.freeLists ∧
          s1.heap = addBlock s.heap s.heapEnd
            { size := expandAllocSize (totalBlockSize n), next := none, prev := none,
              is_free := true, is_mmap := false } ∧
          s1.heapEnd = s.heapEnd + expandAllocSize (totalBlockSize n))))) := by
  unfold mem_malloc at h
  by_cases hn : n = 0
  · rw [if_pos hn] at h; cases h
  refine ⟨hn, ?_⟩
  rw [if_neg hn] at h
  by_cases hth : MMAP_THRESHOLD ≤ totalBlockSize n
  · rw [if_pos hth] at h
    exact Or.inl ⟨hth, h⟩
  · rw [if_neg hth] at h
    have hlt : totalBlockSize n < MMAP_THRESHOLD := Nat.lt_of_not_le hth
    refine Or.inr ⟨hlt, ?_⟩
    cases hf : find_free_block s (totalBlockSize n) with
    | some a =>
      rw [hf] at h
      obtain ⟨blk0, hb, hfr, hsz⟩ := find_free_block_success s (totalBlockSize n) a hf
      exact ⟨a, s, blk0, hb, hfr, hsz, h, Or.inl rfl⟩
    | none =>
      rw [hf] at h
      rcases expand_heap_cases s (totalBlockSize n) with ⟨hok, heq⟩ |
        ⟨hok, s1, heq, e1, e2, e3, e4, e5, e6, e7, e8⟩
      · rw [heq] at h
        cases h
      · rw [heq] at h
        dsimp only at h
        have htlt : totalBlockSize n + 15 < W := by
          have h1 := totalBlockSize_le n
          unfold W at *
          omega
        refine ⟨s.heapEnd, s1,
          { size := expandAllocSize (totalBlockSize n), next := none, prev := none,
            is_free := true, is_mmap := false }, ?_, rfl, ?_, h,
          Or.inr ⟨hok, rfl, e3, e4, e5, e6, e7, e8, e1, e2⟩⟩
        · rw [e1]
          exact getBlock_addBlock_self s.heap s.heapEnd _
        · exact expandAllocSize_ge (totalBlockSize n) htlt

/-- A failed mem_malloc leaves every program-visible component of the
    state unchanged (only an OS oracle flag is consumed). -/
theorem mem_malloc_none (s : MState) (n : Nat) (s' : MState)
    (h : mem_malloc s n = (none, s')) :
    s'.heap = s.heap ∧ s'.heapEnd = s.heapEnd ∧ s'.freeLists = s.freeLists ∧
    s'.stats = s.stats ∧ s'.mapped = s.mapped ∧ s'.nextMapAddr = s.nextMapAddr ∧
    s'.mem = s.mem := by
  unfold mem_malloc at h
  by_cases hn : n = 0
  · rw [if_pos hn] at h
    obtain rfl : s = s' := congrArg Prod.snd h
    exact ⟨rfl, rfl, rfl, rfl, rfl, rfl, rfl⟩
  rw [if_neg hn] at h
  by_cases hth : MMAP_THRESHOLD ≤ totalBlockSize n
  · rw [if_pos hth] at h
    obtain ⟨_, heq⟩ := mallocMmap_none s _ s' h
    rw [heq]
    exact ⟨rfl, rfl, rfl, rfl, rfl, rfl, rfl⟩
  · rw [if_neg hth] at h
    cases hf : find_free_block s (totalBlockSize n) with
    | some a =>
      rw [hf] at h
      dsimp only at h
      obtain ⟨blk0, hb, _, _⟩ := find_free_block_success s (totalBlockSize n) a hf
      obtain ⟨blk, s2, heq, _⟩ := mallocFinish_spec s a n (by rw [hb]; rfl)
      rw [heq] at h
      cases h
    | none =>
      rw [hf] at h
      rcases expand_heap_cases s (totalBlockSize n) with ⟨hok, heq⟩ |
        ⟨hok, s1, heq, e1, e2, e3, e4, e5, e6, e7, e8⟩
      · rw [heq] at h
        dsimp only at h
        obtain rfl : _ = s' := congrArg Prod.snd h
        exact ⟨rfl, rfl, rfl, rfl, rfl, rfl, rfl⟩
      · rw [heq] at h
        dsimp only at h
        obtain ⟨blk, s2, heq2, _⟩ := mallocFinish_spec s1 s.heapEnd n
          (by rw [e1, getBlock_addBlock_self]; rfl)
        rw [heq2] at h
        cases h

theorem statsInv_zero : statsInv Stats.zero := rfl

theorem statsInv_of_alloc_eqs (st st' : Stats) (x : Nat)
    (h1 : st'.total_allocated = wrap64 (st.total_allocated + x))
    (h2 : st'.current_usage = wrap64 (st.current_usage + x))
    (h3 : st'.total_freed = st.total_freed)
    (h : statsInv st) : statsInv st' := by
  unfold statsInv wrap64 W at *
  rw [h1, h2, h3]
  omega

theorem statsInv_of_free_eqs (st st' : Stats) (x : Nat)
    (h1 : st'.total_freed = wrap64 (st.total_freed + x))
    (h2 : st'.current_usage = sub64 st.current_usage x)
    (h3 : st'.total_allocated = st.total_allocated)
    (h : statsInv st) : statsInv st' := by
  unfold statsInv sub64 wrap64 W at *
  rw [h1, h2, h3]
  omega

theorem miscEq_refl (s : MState) : MiscEq s s :=
  ⟨rfl, rfl, rfl, rfl, rfl, rfl, rfl, rfl, rfl, rfl, rfl, rfl⟩

theorem miscEq_trans {s1 s2 s3 : MState}
    (h1 : MiscEq s1 s2) (h2 : MiscEq s2 s3) : MiscEq s1 s3 := by
  obtain ⟨a1, b1, c1, d1, e1, f1, g1, i1, j1, k1, l1, m1⟩ := h1
  obtain ⟨a2, b2, c2, d2, e2, f2, g2, i2, j2, k2, l2, m2⟩ := h2
  exact ⟨a2.trans a1, b2.trans b1, c2.trans c1, d2.trans d1, e2.trans e1,
    f2.trans f1, g2.trans g1, i2.trans i1, j2.trans j1, k2.trans k1,
    l2.trans l1, m2.trans m1⟩

theorem coalesceStep_misc (s : MState) (a b : Nat) :
    MiscEq s (coalesceStep s a b) := by
  obtain ⟨_, _, _, r1, r2, r3, r4, r5, r6, r7⟩ := remove_surgery s b
  unfold coalesceStep MiscEq
  dsimp only
  repeat' split
  all_goals simp [r1, r2, r3, r4, r5, r6, r7]

theorem coalesceFuel_misc (fuel : Nat) : ∀ (s : MState) (a : Nat),
    MiscEq s (coalesceFuel fuel s a) := by
  induction fuel with
  | zero =>
    intro s a
    exact miscEq_refl s
  | succ f ih =>
    intro s a
    show MiscEq s (coalesceFuel (f + 1) s a)
    unfold coalesceFuel
    repeat' split
    all_goals
      first
        | exact miscEq_refl s
        | exact miscEq_trans (coalesceStep_misc s a _) (ih _ a)

theorem coalesce_misc (s : MState) (a : Nat) : MiscEq s (coalesce s a) :=
  coalesceFuel_misc s.heap.length s a

/-- Case analysis of mem_free. -/
theorem mem_free_cases (s : MState) (ptr : Nat) :
    ((ptr = 0 ∨ lookupAnyBlock s (ptr - HDR) = none) ∧ mem_free s ptr = s) ∨
    (∃ blk, ptr ≠ 0 ∧ lookupAnyBlock s (ptr - HDR) = some blk ∧ blk.is_mmap = true ∧
      mem_free s ptr =
        { freeAccount s blk.size with mapped := delBlock s.mapped (ptr - HDR) }) ∨
    (∃ blk, ptr ≠ 0 ∧ lookupAnyBlock s (ptr - HDR) = some blk ∧ blk.is_mmap = false ∧
      mem_free s ptr =
        add_to_free_list
          (coalesce (addMarkFree (freeAccount s blk.size) (ptr - HDR)) (ptr - HDR))
          (ptr - HDR)) := by
  by_cases hp : ptr = 0
  · left
    exact ⟨Or.inl hp, by unfold mem_free; rw [if_pos hp]⟩
  cases hlook : lookupAnyBlock s (ptr - HDR) with
  | none =>
    left
    refine ⟨Or.inr rfl, ?_⟩
    unfold mem_free
    rw [if_neg hp, hlook]
  | some blk =>
    cases hmm : blk.is_mmap with
    | true =>
      right; left
      refine ⟨blk, hp, rfl, hmm, ?_⟩
      unfold mem_free
      rw [if_neg hp, hlook]
      dsimp only
      rw [if_pos hmm]
    | false =>
      right; right
      refine ⟨blk, hp, rfl, hmm, ?_⟩
      unfold mem_free
      rw [if_neg hp, hlook]
      dsimp only
      rw [if_neg (by rw [hmm]; exact Bool.false_ne_true)]

/-- The statistics effect of mem_free. -/
theorem mem_free_stats (s : MState) (ptr : Nat) :
    mem_free s ptr = s ∨
    (∃ blk, ptr ≠ 0 ∧ lookupAnyBlock s (ptr - HDR) = some blk ∧
      (mem_free s ptr).stats.total_freed = wrap64 (s.stats.total_freed + blk.size) ∧
      (mem_free s ptr).stats.current_usage = sub64 s.stats.current_usage blk.size ∧
      (mem_free s ptr).stats.total_allocated = s.stats.total_allocated) := by
  rcases mem_free_cases s ptr with ⟨_, heq⟩ | ⟨blk, hp, hlook, _, heq⟩ |
    ⟨blk, hp, hlook, _, heq⟩
  · exact Or.inl heq
  · right
    exact ⟨blk, hp, hlook, by rw [heq]; rfl, by rw [heq]; rfl, by rw [heq]; rfl⟩
  · right
    refine ⟨blk, hp, hlook, ?_, ?_, ?_⟩
    all_goals rw [heq, (add_misc _ _).1]
    · rw [(coalesce_misc _ _).2.1, (addMarkFree_misc _ _).1]
      rfl
    · rw [(coalesce_misc _ _).2.2.1, (addMarkFree_misc _ _).1]
      rfl
    · rw [(coalesce_misc _ _).1, (addMarkFree_misc _ _).1]
      rfl

theorem statsInv_malloc (s : MState) (n : Nat) (h : statsInv s.stats) :
    statsInv (mem_malloc s n).2.stats := by
  rcases hres : mem_malloc s n with ⟨r, s2⟩
  show statsInv s2.stats
  cases r with
  | none =>
    obtain ⟨_, _, _, hst, _⟩ := mem_malloc_none s n s2 hres
    rw [hst]; exact h
  | some p =>
    obtain ⟨hn, hc⟩ := mem_malloc_some s n p s2 hres
    rcases hc with ⟨_, hm⟩ | ⟨_, a, s1, blk0, _, _, _, hfin, hs1⟩
    · obtain ⟨_, _, hrec⟩ := mallocMmap_some s _ p s2 hm
      rw [hrec]
      exact statsInv_of_alloc_eqs s.stats _ (totalBlockSize n) rfl rfl rfl h
    · obtain ⟨blk, s'', hfin2, _, _, e1, e2, e3, _⟩ := mallocFinish_spec s1 a n
        (by rename_i hb _ _; rw [hb]; rfl)
      rw [hfin] at hfin2
      obtain rfl : s2 = s'' := congrArg Prod.snd hfin2
      have hs1s : s1.stats = s.stats := by
        rcases hs1 with rfl | ⟨_, _, hst, _⟩
        · rfl
        · exact hst
      rw [hs1s] at e1 e2 e3
      exact statsInv_of_alloc_eqs s.stats _ blk.size e1 e2 e3 h

theorem statsInv_free (s : MState) (ptr : Nat) (h : statsInv s.stats) :
    statsInv (mem_free s ptr).stats := by
  rcases mem_free_stats s ptr with heq | ⟨blk, _, _, e1, e2, e3⟩
  · rw [heq]; exact h
  · exact statsInv_of_free_eqs s.stats _ blk.size e1 e2 e3 h

theorem statsInv_calloc (s : MState) (n m : Nat) (h : statsInv s.stats) :
    statsInv (mem_calloc s n m).2.stats := by
  unfold mem_calloc
  dsimp only
  split
  · exact h
  split
  · exact h
  rcases hm : mem_malloc s (wrap64 (n * m)) with ⟨r, s1⟩
  have h1 : statsInv s1.stats := by
    have := statsInv_malloc s (wrap64 (n * m)) h
    rw [hm] at this
    exact this
  cases r
  · exact h1
  · exact h1

theorem statsInv_realloc (s : MState) (ptr n : Nat) (h : statsInv s.stats) :
    statsInv (mem_realloc s ptr n).2.stats := by
  unfold mem_realloc
  dsimp only
  split
  · exact statsInv_malloc s n h
  split
  · exact statsInv_free s ptr h
  split
  · exact h
  · next blk hblk =>
    split
    · exact h
    rcases hm : mem_malloc s n with ⟨r, s1⟩
    have h1 : statsInv s1.stats := by
      have := statsInv_malloc s n h
      rw [hm] at this
      exact this
    cases r with
    | none => exact h1
    | some np =>
      dsimp only
      exact statsInv_free { s1 with mem := memcpyRange s1.mem np ptr (sub64 blk.size HDR) } ptr h1

theorem statsInv_step (s : MState) (op : Op) (h : statsInv s.stats) :
    statsInv (step s op).stats := by
  cases op with
  | malloc n => exact statsInv_malloc s n h
  | free p => exact statsInv_free s p h
  | calloc n m => exact statsInv_calloc s n m h
  | realloc p n => exact statsInv_realloc s p n h
  | reset => exact statsInv_zero

theorem statsInv_run (ops : List Op) : ∀ s : MState, statsInv s.stats →
    statsInv (run ops s).stats := by
  induction ops with
  | nil => intro s h; exact h
  | cons op rest ih =>
    intro s h
    exact ih (step s op) (statsInv_step s op h)

theorem sub64_of_le (a b : Nat) (hb : b ≤ a) (ha : a < W) : sub64 a b = a - b := by
  unfold sub64 wrap64 W at *
  omega

theorem getBlock_mem (h : Heap) (k : Nat) (b : Block)
    (hb : getBlock h k = some b) : (k, b) ∈ h := by
  induction h with
  | nil => cases hb
  | cons p t ih =>
    by_cases hp : p.1 = k
    · rw [getBlock, if_pos hp] at hb
      have hpe : p = (k, b) := by
        obtain rfl : p.2 = b := Option.some.inj hb
        calc p = (p.1, p.2) := rfl
          _ = (k, p.2) := by rw [hp]
      rw [← hpe]
      exact List.mem_cons_self p t
    · rw [getBlock, if_neg hp] at hb
      exact List.mem_cons_of_mem p (ih hb)

/-! ### Claim theorems -/

/-- C1: the free-list membership invariant is violated by the code.  After
    mem_malloc(65504), mem_malloc(65504), mem_free of the first block and
    mem_malloc(70000), the heap block at offset 0 has is_free set and is not
    mapped, yet every free list is empty: the remove_from_free_list call on
    the fresh expand_heap block overwrote the class-9 list head, losing the
    65536-byte free block.  The subsequent state of the allocator evaluates
    exactly as stated here. -/
theorem expand_heap_unlink_loses_free_block :
    (getBlock c1State.heap 0).map Block.is_free = some true ∧
    (getBlock c1State.heap 0).map Block.is_mmap = some false ∧
    freeListMembers c1State = [] ∧
    c1State.freeLists = List.replicate 10 none := by decide

/-- C7 (counterexample): in the spec's coalescing scenario the final heap
    holds no free block covering the three blocks' combined range
    [0, 432), so they are not merged into a single free block (the
    coalesce counter does reach 2). -/
theorem coalesce_scenario_single_block_cex :
    c7State.stats.num_coalesces = 2 ∧
    ¬ ∃ q ∈ c7State.heap, q.2.is_free = true ∧ q.1 = 0 ∧ 432 ≤ q.1 + q.2.size := by
  decide

/-- C7 (amended): after allocating three 100-byte blocks and releasing
    them middle, first, last, the coalesce counter is exactly 2 and the
    three blocks' memory ends in two adjacent free blocks: first+middle
    merged into a 288-byte block at offset 0, and last merged with the
    trailing heap remainder into a 65248-byte block at offset 288
    (forward-only coalescing never merges a freed block with the free
    block before it). -/
theorem coalesce_scenario_quiescent_state :
    c7State.stats.num_coalesces = 2 ∧
    getBlock c7State.heap 0 = some ⟨288, none, none, true, false⟩ ∧
    getBlock c7State.heap 288 = some ⟨65248, none, none, true, false⟩ := by decide

/-- C8 (counterexample): in the spec's split scenario the split counter
    ends at 2, not 1. -/
theorem split_scenario_count_cex :
    c8State.stats.num_splits = 2 ∧ c8State.stats.num_splits ≠ 1 := by decide

/-- C8 (amended): the first 100-byte allocation already performs one split
    (carving 144 bytes out of the fresh 65536-byte heap extension), and
    the 50-byte allocation after the free performs the second split, so
    the split counter is 1 after the first allocation and 2 at the end. -/
theorem split_scenario_count_two :
    c8StateA.stats.num_splits = 1 ∧ c8State.stats.num_splits = 2 := by decide

/-- C2 (counterexample): after malloc(100), malloc(100), free(first),
    free(second), the quiescent heap holds two physically adjacent free
    non-mapped blocks (at offsets 0 and 144 = 0 + 144): release's forward
    coalescing does not prevent adjacent free blocks, because a block
    freed after its predecessor is never merged backwards. -/
theorem adjacent_free_blocks_cex :
    getBlock c2State.heap 0 = some ⟨144, none, none, true, false⟩ ∧
    getBlock c2State.heap 144 = some ⟨65392, none, none, true, false⟩ ∧
    (0 : Nat) + 144 = 144 := by decide

/-- C10: the size rounding align16(n + H) in mem_malloc wraps in size_t
    arithmetic with no overflow guard: every request above
    SIZE_MAX - H - 15 yields a tiny total block size (at most 32), and
    concretely mem_malloc(SIZE_MAX) computes total size 32 and returns a
    non-null address whose block is 32 bytes, far smaller than the
    requested payload. -/
theorem align_overflow_wrap :
    (∀ n, W - 48 < n → n < W → totalBlockSize n ≤ 32) ∧
    totalBlockSize (W - 1) = 32 ∧
    (mem_malloc initState (W - 1)).1 = some 32 ∧
    (getBlock (mem_malloc initState (W - 1)).2.heap 0).map Block.size = some 32 ∧
    32 < W - 1 := by
  refine ⟨?_, by decide, by decide, by decide, by decide⟩
  intro n h1 h2
  unfold totalBlockSize align_size wrap64 HDR W at *
  omega

/-- Witness for C10 at the concrete input SIZE_MAX. -/
theorem align_overflow_wrap_witness : totalBlockSize (2 ^ 64 - 1) ≤ 32 :=
  align_overflow_wrap.1 (2 ^ 64 - 1) (by decide) (by decide)

/-- C6 (counterexample): allocate of a = SIZE_MAX > 0 succeeds at address
    32 (the rounded size wraps to 32), but resize of that address to
    b = 1 ≤ a does not return the same address: the block's capacity is 0,
    so the in-place branch is not taken. -/
theorem mem_realloc_shrink_cex :
    0 < (2 ^ 64 - 1 : Nat) ∧ (1 : Nat) ≤ 2 ^ 64 - 1 ∧
    (mem_malloc initState (2 ^ 64 - 1)).1 = some 32 ∧
    (mem_realloc (mem_malloc initState (2 ^ 64 - 1)).2 32 1).1 ≠ some 32 := by decide

/-- C4: mem_calloc returns null on a zero count or element size; returns
    null, without touching the state, when the size_t product wraps
    (detected by total / count differing from the element size); and
    otherwise behaves as mem_malloc of the product, with every payload
    byte of a successful allocation set to 0. -/
theorem mem_calloc_spec (s : MState) (n m : Nat) :
    ((n = 0 ∨ m = 0) → mem_calloc s n m = (none, s)) ∧
    (n ≠ 0 → m ≠ 0 → wrap64 (n * m) / n ≠ m → mem_calloc s n m = (none, s)) ∧
    (n ≠ 0 → m ≠ 0 → wrap64 (n * m) / n = m →
      (mem_calloc s n m).1 = (mem_malloc s (wrap64 (n * m))).1 ∧
      (∀ p s', mem_calloc s n m = (some p, s') →
        s'.heap = (mem_malloc s (wrap64 (n * m))).2.heap ∧
        s'.stats = (mem_malloc s (wrap64 (n * m))).2.stats ∧
        s'.freeLists = (mem_malloc s (wrap64 (n * m))).2.freeLists ∧
        s'.mapped = (mem_malloc s (wrap64 (n * m))).2.mapped ∧
        s'.heapEnd = (mem_malloc s (wrap64 (n * m))).2.heapEnd ∧
        (∀ i, i < wrap64 (n * m) → s'.mem (p + i) = 0))) := by
  refine ⟨?_, ?_, ?_⟩
  · intro h
    unfold mem_calloc
    rw [if_pos h]
  · intro hn hm hover
    unfold mem_calloc
    rw [if_neg (by push_neg; exact ⟨hn, hm⟩)]
    dsimp only
    rw [if_pos hover]
  · intro hn hm hok
    unfold mem_calloc
    rw [if_neg (by push_neg; exact ⟨hn, hm⟩)]
    dsimp only
    rw [if_neg (show ¬ (wrap64 (n * m) / n ≠ m) from fun hh => hh hok)]
    rcases hmal : mem_malloc s (wrap64 (n * m)) with ⟨r, s1⟩
    cases r with
    | none =>
      dsimp only
      exact ⟨rfl, fun p s' hps => by cases hps⟩
    | some q =>
      dsimp only
      refine ⟨rfl, ?_⟩
      intro p s' hps
      have hp : q = p := Option.some.inj (congrArg Prod.fst hps)
      have hs : s' = { s1 with mem := memsetRange s1.mem q (wrap64 (n * m)) 0 } :=
        (congrArg Prod.snd hps).symm
      subst hp
      rw [hs]
      refine ⟨rfl, rfl, rfl, rfl, rfl, ?_⟩
      intro i hi
      show memsetRange s1.mem q (wrap64 (n * m)) 0 (q + i) = 0
      unfold memsetRange
      rw [if_pos (by omega)]

/-- Witness for C4: calloc(0, 5) is null; calloc(2^32, 2^32) overflows to
    null; the first payload byte of a successful calloc(10, 50) is 0. -/
theorem mem_calloc_spec_witness :
    mem_calloc initState 0 5 = (none, initState) ∧
    mem_calloc initState (2 ^ 32) (2 ^ 32) = (none, initState) ∧
    ((mem_calloc initState 10 50).2).mem 32 = 0 := by
  refine ⟨(mem_calloc_spec initState 0 5).1 (Or.inl rfl),
    (mem_calloc_spec initState (2 ^ 32) (2 ^ 32)).2.1 (by decide) (by decide) (by decide),
    ?_⟩
  have hc : mem_calloc initState 10 50 = (some 32, (mem_calloc initState 10 50).2) := by
    have h1 : (mem_calloc initState 10 50).1 = some 32 := by decide
    calc mem_calloc initState 10 50
        = ((mem_calloc initState 10 50).1, (mem_calloc initState 10 50).2) := rfl
      _ = (some 32, (mem_calloc initState 10 50).2) := by rw [h1]
  have hb := (((mem_calloc_spec initState 10 50).2.2 (by decide) (by decide)
    (by decide)).2 32 (mem_calloc initState 10 50).2 hc).2.2.2.2.2 0 (by decide)
  simpa using hb

/-- C5: if ptr refers to a block of payload capacity smaller than the new
    size n and the internal mem_malloc(n) fails, mem_realloc returns null
    and the entire program-visible state - the heap (hence the old block's
    header and its in-use status), the free lists, all seven statistics
    counters, the mapped blocks and the byte memory (hence the payload) -
    is exactly as before the call. -/
theorem mem_realloc_fail_atomic (s : MState) (ptr n : Nat) (blk : Block)
    (hp : ptr ≠ 0) (hn : n ≠ 0)
    (hlook : lookupAnyBlock s (ptr - HDR) = some blk)
    (hcap : sub64 blk.size HDR < n)
    (hfail : (mem_malloc s n).1 = none) :
    mem_realloc s ptr n = (none, (mem_malloc s n).2) ∧
    (mem_malloc s n).2.heap = s.heap ∧
    (mem_malloc s n).2.stats = s.stats ∧
    (mem_malloc s n).2.freeLists = s.freeLists ∧
    (mem_malloc s n).2.mapped = s.mapped ∧
    (mem_malloc s n).2.mem = s.mem ∧
    (mem_malloc s n).2.heapEnd = s.heapEnd ∧
    lookupAnyBlock (mem_malloc s n).2 (ptr - HDR) = some blk := by
  rcases hmal : mem_malloc s n with ⟨r, s1⟩
  have hr : r = none := by rw [hmal] at hfail; exact hfail
  subst hr
  obtain ⟨e1, e2, e3, e4, e5, e6, e7⟩ := mem_malloc_none s n s1 hmal
  have hre : mem_realloc s ptr n = (none, s1) := by
    unfold mem_realloc
    rw [if_neg hp, if_neg hn]
    dsimp only
    rw [hlook]
    dsimp only
    rw [if_neg (show ¬ (n ≤ sub64 blk.size HDR) by omega), hmal]
  refine ⟨hre, e1, e4, e3, e5, e7, e2, ?_⟩
  unfold lookupAnyBlock at hlook ⊢
  rw [e1, e5]
  exact hlook

/-- Witness for C5: a live 144-byte block at offset 0 with capacity 112,
    a resize request of 70000 bytes, and the OS refusing to extend the
    heap: realloc fails and the state is untouched. -/
theorem mem_realloc_fail_atomic_witness :
    mem_realloc c5FailState 32 70000 = (none, (mem_malloc c5FailState 70000).2) ∧
    (mem_malloc c5FailState 70000).2.stats = c5FailState.stats := by
  have h := mem_realloc_fail_atomic c5FailState 32 70000
    ⟨144, none, none, false, false⟩ (by decide) (by decide) (by decide)
    (by decide) (by decide)
  exact ⟨h.1, h.2.2.1⟩

/-- C3: in every state reachable from the initial state by any sequence
    of the public operations, current_usage = total_allocated -
    total_freed in size_t arithmetic; moreover every successful
    mem_malloc adds the final block's size to both total_allocated and
    current_usage (leaving total_freed alone), and every mem_free of a
    valid pointer adds the released block's size to total_freed and
    subtracts it from current_usage (leaving total_allocated alone). -/
theorem stats_identity :
    (∀ ops : List Op, statsInv (run ops initState).stats) ∧
    (∀ s n p s', mem_malloc s n = (some p, s') →
      ∃ blk, (getBlock s'.heap (p - HDR) = some blk ∨
              getBlock s'.mapped (p - HDR) = some blk) ∧
        s'.stats.total_allocated = wrap64 (s.stats.total_allocated + blk.size) ∧
        s'.stats.current_usage = wrap64 (s.stats.current_usage + blk.size) ∧
        s'.stats.total_freed = s.stats.total_freed) ∧
    (∀ s ptr blk, ptr ≠ 0 → lookupAnyBlock s (ptr - HDR) = some blk →
      (mem_free s ptr).stats.total_freed = wrap64 (s.stats.total_freed + blk.size) ∧
      (mem_free s ptr).stats.current_usage = sub64 s.stats.current_usage blk.size ∧
      (mem_free s ptr).stats.total_allocated = s.stats.total_allocated) := by
  refine ⟨fun ops => statsInv_run ops initState statsInv_zero, ?_, ?_⟩
  · intro s n p s' h
    obtain ⟨hn, hc⟩ := mem_malloc_some s n p s' h
    rcases hc with ⟨hth, hm⟩ | ⟨hlt, a, s1, blk0, hb, hfr, hsz, hfin, hs1⟩
    · obtain ⟨hok, hpe, hrec⟩ := mallocMmap_some s _ p s' hm
      have hsub : p - HDR = s.nextMapAddr := by
        rw [hpe]; unfold HDR; omega
      refine ⟨⟨totalBlockSize n, none, none, false, true⟩, Or.inr ?_, ?_, ?_, ?_⟩
      · rw [hsub, hrec]
        exact getBlock_addBlock_self s.mapped s.nextMapAddr _
      · rw [hrec]
      · rw [hrec]
      · rw [hrec]
    · obtain ⟨blk, s'', hfin2, hget, hfree, e1, e2, e3, _⟩ :=
        mallocFinish_spec s1 a n (by rw [hb]; rfl)
      have hboth := hfin.symm.trans hfin2
      have hpe : p = a + HDR := Option.some.inj (congrArg Prod.fst hboth)
      obtain rfl : s' = s'' := congrArg Prod.snd hboth
      have hsub : p - HDR = a := by rw [hpe]; omega
      have hs1s : s1.stats = s.stats := by
        rcases hs1 with rfl | ⟨_, _, hst, _⟩
        · rfl
        · exact hst
      rw [hs1s] at e1 e2 e3
      exact ⟨blk, Or.inl (by rw [hsub]; exact hget), e1, e2, e3⟩
  · intro s ptr blk hp hlook
    rcases mem_free_cases s ptr with ⟨hd, _⟩ | ⟨blk2, hp2, hl2, _, heq⟩ |
      ⟨blk2, hp2, hl2, _, heq⟩
    · rcases hd with hd | hd
      · exact absurd hd hp
      · rw [hlook] at hd; cases hd
    · rw [hlook] at hl2
      obtain rfl : blk = blk2 := Option.some.inj hl2
      rw [heq]
      exact ⟨rfl, rfl, rfl⟩
    · rw [hlook] at hl2
      obtain rfl : blk = blk2 := Option.some.inj hl2
      refine ⟨?_, ?_, ?_⟩
      all_goals rw [heq, (add_misc _ _).1]
      · rw [(coalesce_misc _ _).2.1, (addMarkFree_misc _ _).1]
        rfl
      · rw [(coalesce_misc _ _).2.2.1, (addMarkFree_misc _ _).1]
        rfl
      · rw [(coalesce_misc _ _).1, (addMarkFree_misc _ _).1]
        rfl

/-- Witness for C3: the identity after a malloc/free pair, and the
    total_freed delta of a concrete release (the freed block has size
    144). -/
theorem stats_identity_witness :
    statsInv (run [Op.malloc 100, Op.free 32] initState).stats ∧
    (mem_free (mem_malloc initState 100).2 32).stats.total_freed =
      wrap64 ((mem_malloc initState 100).2.stats.total_freed + 144) := by
  refine ⟨stats_identity.1 [Op.malloc 100, Op.free 32], ?_⟩
  exact (stats_identity.2.2 (mem_malloc initState 100).2 32
    ⟨144, none, none, false, false⟩ (by decide) (by decide)).1

theorem expandAllocSize_lt_W (n : Nat) : expandAllocSize n < W := by
  unfold expandAllocSize
  split
  · decide
  · exact align_size_lt_W n

theorem mallocFinish_mapped (s1 : MState) (a n : Nat) :
    (mallocFinish s1 a n).2.mapped = s1.mapped ∧
    (mallocFinish s1 a n).2.nextMapAddr = s1.nextMapAddr := by
  have h4 : (mallocS4 s1 a n).mapped = s1.mapped ∧
      (mallocS4 s1 a n).nextMapAddr = s1.nextMapAddr := by
    unfold mallocS4
    obtain ⟨_, _, m3, m4, _⟩ := mallocMarkUsed_misc (split_block (remove_from_free_list s1 a) a n) a
    obtain ⟨_, _, _, _, _, _, _, p8, p9, _⟩ := split_stats (remove_from_free_list s1 a) a n
    obtain ⟨_, _, _, _, _, r3, r4, _⟩ := remove_surgery s1 a
    exact ⟨(m3.trans p8).trans r3, (m4.trans p9).trans r4⟩
  unfold mallocFinish
  split
  · exact h4
  · exact h4

/-- C9: a request whose rounded block size reaches the 128 KiB threshold
    is served by an anonymous mapping: the block is recorded as mapped
    with is_mmap set and size exactly the rounded size, the heap and the
    free lists are untouched, and releasing the returned address updates
    the counters and removes the whole mapping without touching the heap,
    the free lists, or the coalesce counter.  A request whose rounded
    size is below the threshold never creates a mapping. -/
theorem mem_malloc_large_path_spec :
    (∀ s n p s', MMAP_THRESHOLD ≤ totalBlockSize n → mem_malloc s n = (some p, s') →
      p = s.nextMapAddr + HDR ∧
      getBlock s'.mapped s.nextMapAddr =
        some ⟨totalBlockSize n, none, none, false, true⟩ ∧
      s'.heap = s.heap ∧ s'.freeLists = s.freeLists ∧
      (getBlock s.heap s.nextMapAddr = none →
        (mem_free s' p).heap = s'.heap ∧
        (mem_free s' p).freeLists = s'.freeLists ∧
        (mem_free s' p).mapped = delBlock s'.mapped s.nextMapAddr ∧
        (mem_free s' p).stats.total_freed =
          wrap64 (s'.stats.total_freed + totalBlockSize n) ∧
        (mem_free s' p).stats.current_usage =
          sub64 s'.stats.current_usage (totalBlockSize n) ∧
        (mem_free s' p).stats.num_frees = wrap64 (s'.stats.num_frees + 1) ∧
        (mem_free s' p).stats.num_coalesces = s'.stats.num_coalesces)) ∧
    (∀ s n, totalBlockSize n < MMAP_THRESHOLD →
      (mem_malloc s n).2.mapped = s.mapped ∧
      (mem_malloc s n).2.nextMapAddr = s.nextMapAddr) := by
  constructor
  · intro s n p s' hth h
    obtain ⟨hn, hc⟩ := mem_malloc_some s n p s' h
    rcases hc with ⟨_, hm⟩ | ⟨hlt, _⟩
    · obtain ⟨hok, hpe, hrec⟩ := mallocMmap_some s _ p s' hm
      have hsub : p - HDR = s.nextMapAddr := by
        rw [hpe]; unfold HDR; omega
      have hmapget : getBlock s'.mapped s.nextMapAddr =
          some ⟨totalBlockSize n, none, none, false, true⟩ := by
        rw [hrec]
        exact getBlock_addBlock_self s.mapped s.nextMapAddr _
      have hheap : s'.heap = s.heap := by rw [hrec]
      refine ⟨hpe, hmapget, hheap, by rw [hrec], ?_⟩
      intro hdisj
      have hp0 : p ≠ 0 := by rw [hpe]; unfold HDR; omega
      have hlook : lookupAnyBlock s' (p - HDR) =
          some ⟨totalBlockSize n, none, none, false, true⟩ := by
        unfold lookupAnyBlock
        rw [hsub, hheap, hdisj]
        exact hmapget
      have heqfree : mem_free s' p =
          { freeAccount s' (totalBlockSize n) with
              mapped := delBlock s'.mapped (p - HDR) } := by
        unfold mem_free
        rw [if_neg hp0, hlook]
        dsimp only
        rw [if_pos rfl]
      rw [heqfree, hsub]
      exact ⟨rfl, rfl, rfl, rfl, rfl, rfl, rfl⟩
    · exact absurd hth (by omega)
  · intro s n hlt
    rcases hm : mem_malloc s n with ⟨r, s2⟩
    show s2.mapped = s.mapped ∧ s2.nextMapAddr = s.nextMapAddr
    cases r with
    | none =>
      obtain ⟨_, _, _, _, e5, e6, _⟩ := mem_malloc_none s n s2 hm
      exact ⟨e5, e6⟩
    | some p =>
      obtain ⟨hn, hc⟩ := mem_malloc_some s n p s2 hm
      rcases hc with ⟨hth, _⟩ | ⟨_, a, s1, blk0, hb, _, _, hfin, hs1⟩
      · exact absurd hth (by omega)
      · obtain ⟨hfm, hfa⟩ := mallocFinish_mapped s1 a n
        rw [hfin] at hfm hfa
        have hs1m : s1.mapped = s.mapped ∧ s1.nextMapAddr = s.nextMapAddr := by
          rcases hs1 with rfl | ⟨_, _, _, hmp, hna, _⟩
          · exact ⟨rfl, rfl⟩
          · exact ⟨hmp, hna⟩
        exact ⟨hfm.trans hs1m.1, hfa.trans hs1m.2⟩

/-- Witness for C9: a 131040-byte request rounds to exactly 128 KiB and
    is mapped at address 2^70; releasing it removes the mapping; a
    100-byte request leaves the mapped population untouched. -/
theorem mem_malloc_large_path_spec_witness :
    getBlock (mem_malloc initState 131040).2.mapped (2 ^ 70) =
      some ⟨131072, none, none, false, true⟩ ∧
    (mem_free (mem_malloc initState 131040).2 (2 ^ 70 + 32)).mapped =
      delBlock (mem_malloc initState 131040).2.mapped (2 ^ 70) ∧
    (mem_malloc initState 100).2.mapped = initState.mapped := by
  have hm : mem_malloc initState 131040 =
      (some (2 ^ 70 + 32), (mem_malloc initState 131040).2) := by
    have h1 : (mem_malloc initState 131040).1 = some (2 ^ 70 + 32) := by decide
    calc mem_malloc initState 131040
        = ((mem_malloc initState 131040).1, (mem_malloc initState 131040).2) := rfl
      _ = (some (2 ^ 70 + 32), (mem_malloc initState 131040).2) := by rw [h1]
  have hA := mem_malloc_large_path_spec.1 initState 131040 (2 ^ 70 + 32)
    (mem_malloc initState 131040).2 (by decide) hm
  have hfree := hA.2.2.2.2 (by decide)
  exact ⟨hA.2.1, hfree.2.2.1, (mem_malloc_large_path_spec.2 initState 100 (by decide)).1⟩

/-- C6 (amended): the resize shrink law holds for every allocation whose
    rounded size does not wrap size_t.  Part one: resize of any pointer
    whose block has capacity at least the (positive) new size returns the
    same pointer and leaves the state untouched.  Part two: a successful
    allocate of n bytes with 0 < n and n + H + 15 < 2^64 yields a pointer
    whose block is in use with capacity at least n, so while the block
    keeps the size and in-use status the allocation established, resize
    to any b with 0 < b <= n returns the pointer unchanged.  (For n with
    n + H + 15 >= 2^64 the rounded size wraps and the law fails, see the
    counterexample.) -/
theorem mem_realloc_shrink :
    (∀ s ptr b blk, ptr ≠ 0 → 0 < b →
      lookupAnyBlock s (ptr - HDR) = some blk →
      blk.size < W → b + HDR ≤ blk.size →
      mem_realloc s ptr b = (some ptr, s)) ∧
    (∀ s n p s', 0 < n → n + HDR + 15 < W →
      getBlock s.heap s.nextMapAddr = none →
      (∀ q ∈ s.heap, (q.2).size < W) →
      mem_malloc s n = (some p, s') →
      HDR ≤ p ∧ ∃ blk, lookupAnyBlock s' (p - HDR) = some blk ∧
        blk.is_free = false ∧ blk.size < W ∧ n + HDR ≤ blk.size) := by
  constructor
  · intro s ptr b blk hp hb hlook hszW hble
    have h32 : HDR ≤ blk.size := by unfold HDR at *; omega
    have hsub : sub64 blk.size HDR = blk.size - HDR :=
      sub64_of_le blk.size HDR h32 hszW
    unfold mem_realloc
    rw [if_neg hp, if_neg (show ¬ b = 0 by omega)]
    dsimp only
    rw [hlook]
    dsimp only
    rw [if_pos (show b ≤ sub64 blk.size HDR by rw [hsub]; omega)]
  · intro s n p s' hn hnw hdisj hwf h
    have hge : n + HDR ≤ totalBlockSize n := totalBlockSize_ge n (by unfold HDR at hnw; omega)
    have htot0 : 0 < totalBlockSize n := by unfold HDR at hge; omega
    obtain ⟨hn0, hc⟩ := mem_malloc_some s n p s' h
    rcases hc with ⟨hth, hm⟩ | ⟨hlt, a, s1, blk0, hb, hfr, hsz, hfin, hs1⟩
    · obtain ⟨hok, hpe, hrec⟩ := mallocMmap_some s _ p s' hm
      have hsub : p - HDR = s.nextMapAddr := by rw [hpe]; unfold HDR; omega
      refine ⟨by rw [hpe]; omega, ⟨totalBlockSize n, none, none, false, true⟩, ?_, rfl,
        totalBlockSize_lt_W n, hge⟩
      unfold lookupAnyBlock
      rw [hsub]
      have hheap : s'.heap = s.heap := by rw [hrec]
      rw [hheap, hdisj, hrec]
      exact getBlock_addBlock_self s.mapped s.nextMapAddr _
    · obtain ⟨blk, s'', hfin2, hget, hfree, _, _, _, _, _, _, _, _, _, hcond⟩ :=
        mallocFinish_spec s1 a n (by rw [hb]; rfl)
      have hboth := hfin.symm.trans hfin2
      have hpe : p = a + HDR := Option.some.inj (congrArg Prod.fst hboth)
      obtain rfl : s' = s'' := congrArg Prod.snd hboth
      have hsub : p - HDR = a := by rw [hpe]; omega
      have hblk0W : blk0.size < W := by
        rcases hs1 with rfl | ⟨_, ha, _, _, _, _, _, _, hheap, _⟩
        · exact hwf (a, blk0) (getBlock_mem _ a blk0 hb)
        · rw [hheap, ha, getBlock_addBlock_self] at hb
          have := Option.some.inj hb
          rw [← this]
          exact expandAllocSize_lt_W (totalBlockSize n)
      rcases hcond blk0 htot0 hb with hcase | hcase
      · exact ⟨by rw [hpe]; omega, blk,
          by unfold lookupAnyBlock; rw [hsub, hget], hfree,
          by omega, by omega⟩
      · exact ⟨by rw [hpe]; omega, blk,
          by unfold lookupAnyBlock; rw [hsub, hget], hfree,
          by rw [hcase]; exact totalBlockSize_lt_W n, by rw [hcase]; omega⟩

/-- Witness for C6: malloc(100) gives address 32 with a 144-byte block;
    realloc of it to 50 returns address 32 with the state unchanged;
    part two applied to the same allocation gives the capacity bound. -/
theorem mem_realloc_shrink_witness :
    mem_realloc (mem_malloc initState 100).2 32 50 =
      (some 32, (mem_malloc initState 100).2) ∧ HDR ≤ 32 := by
  constructor
  · exact mem_realloc_shrink.1 (mem_malloc initState 100).2 32 50
      ⟨144, none, none, false, false⟩ (by decide) (by decide) (by decide)
      (by decide) (by decide)
  · have hm : mem_malloc initState 100 = (some 32, (mem_malloc initState 100).2) := by
      have h1 : (mem_malloc initState 100).1 = some 32 := by decide
      calc mem_malloc initState 100
          = ((mem_malloc initState 100).1, (mem_malloc initState 100).2) := rfl
        _ = (some 32, (mem_malloc initState 100).2) := by rw [h1]
    exact (mem_realloc_shrink.2 initState 100 32 (mem_malloc initState 100).2
      (by decide) (by decide) (by decide) (by decide) hm).1

theorem mem_setBlock (h : Heap) (y : Nat) (b' : Block) :
    ∀ q ∈ setBlock h y b', q ∈ h ∨ q = (y, b') := by
  induction h with
  | nil => intro q hq; cases hq
  | cons p t ih =>
    intro q hq
    rcases List.mem_cons.mp hq with hq | hq
    · by_cases hp : p.1 = y
      · rw [if_pos hp] at hq
        exact Or.inr hq
      · rw [if_neg hp] at hq
        exact Or.inl (hq ▸ List.mem_cons_self p t)
    · rcases ih q hq with h1 | h1
      · exact Or.inl (List.mem_cons_of_mem p h1)
      · exact Or.inr h1

theorem mem_delBlock (h : Heap) (y : Nat) : ∀ q ∈ delBlock h y, q ∈ h := by
  induction h with
  | nil => intro q hq; cases hq
  | cons p t ih =>
    intro q hq
    by_cases hp : p.1 = y
    · rw [delBlock, if_pos hp] at hq
      exact List.mem_cons_of_mem p (ih q hq)
    · rw [delBlock, if_neg hp] at hq
      rcases List.mem_cons.mp hq with hq | hq
      · exact hq ▸ List.mem_cons_self p t
      · exact List.mem_cons_of_mem p (ih q hq)

theorem WfH_setBlock_samesize (E : Nat) (h : Heap) (y : Nat) (b b' : Block)
    (hb : getBlock h y = some b) (hs : b'.size = b.size)
    (hw : WfH E h) : WfH E (setBlock h y b') := by
  intro q hq
  rcases mem_setBlock h y b' q hq with hq' | rfl
  · exact hw q hq'
  · have hbb := hw (y, b) (getBlock_mem h y b hb)
    constructor
    · show 0 < b'.size
      rw [hs]; exact hbb.1
    · show y + b'.size ≤ E
      rw [hs]; exact hbb.2

theorem WfH_setBlock_bound (E : Nat) (h : Heap) (y : Nat) (b' : Block)
    (hbound : 0 < b'.size ∧ y + b'.size ≤ E)
    (hw : WfH E h) : WfH E (setBlock h y b') := by
  intro q hq
  rcases mem_setBlock h y b' q hq with hq' | rfl
  · exact hw q hq'
  · exact hbound

theorem WfH_delBlock (E : Nat) (h : Heap) (y : Nat)
    (hw : WfH E h) : WfH E (delBlock h y) :=
  fun q hq => hw q (mem_delBlock h y q hq)

theorem WfH_rmUnlinkPrev (E : Nat) (s : MState) (ci : Nat) (pv nx : Option Nat)
    (hw : WfH E s.heap) : WfH E (rmUnlinkPrev s ci pv nx).heap := by
  unfold rmUnlinkPrev
  split
  · split
    · next pb hpb => exact WfH_setBlock_samesize E s.heap _ pb _ hpb rfl hw
    · exact hw
  · exact hw

theorem WfH_rmUnlinkNext (E : Nat) (s : MState) (a : Nat)
    (hw : WfH E s.heap) : WfH E (rmUnlinkNext s a).heap := by
  unfold rmUnlinkNext
  split
  · split
    · split
      · next nb hnb => exact WfH_setBlock_samesize E s.heap _ nb _ hnb rfl hw
      · exact hw
    · exact hw
  · exact hw

theorem WfH_rmClearLinks (E : Nat) (s : MState) (a : Nat)
    (hw : WfH E s.heap) : WfH E (rmClearLinks s a).heap := by
  unfold rmClearLinks
  split
  · next blk2 hblk2 => exact WfH_setBlock_samesize E s.heap _ blk2 _ hblk2 rfl hw
  · exact hw

theorem WfH_remove (E : Nat) (s : MState) (a : Nat)
    (hw : WfH E s.heap) : WfH E (remove_from_free_list s a).heap := by
  unfold remove_from_free_list
  split
  · exact hw
  · exact WfH_rmClearLinks E _ a (WfH_rmUnlinkNext E _ a (WfH_rmUnlinkPrev E s _ _ _ hw))

theorem WfH_addMarkFree (E : Nat) (s : MState) (a : Nat)
    (hw : WfH E s.heap) : WfH E (addMarkFree s a).heap := by
  unfold addMarkFree
  split
  · next b hb => exact WfH_setBlock_samesize E s.heap _ b _ hb rfl hw
  · exact hw

theorem WfH_add (E : Nat) (s : MState) (a : Nat)
    (hw : WfH E s.heap) : WfH E (add_to_free_list s a).heap := by
  unfold add_to_free_list
  split
  · exact hw
  · next blk hblk =>
    apply WfH_addMarkFree
    show WfH E (addLinkHead (addFirstWrite s a blk) _ a).heap
    have h1 : WfH E (addFirstWrite s a blk).heap := by
      unfold addFirstWrite
      exact WfH_setBlock_samesize E s.heap _ blk _ hblk rfl hw
    unfold addLinkHead
    split
    · split
      · next hb hhb => exact WfH_setBlock_samesize E _ _ hb _ hhb rfl h1
      · exact h1
    · exact h1

theorem hdrCore_transfer (h h' : Heap) (k : Nat) (b : Block)
    (hc : hdrCore h' k = hdrCore h k) (hb : getBlock h k = some b) :
    ∃ b', getBlock h' k = some b' ∧ b'.size = b.size ∧
      b'.is_free = b.is_free ∧ b'.is_mmap = b.is_mmap := by
  unfold hdrCore at hc
  rw [hb] at hc
  cases hx : getBlock h' k with
  | none => rw [hx] at hc; cases hc
  | some b' =>
    rw [hx] at hc
    have h2 := Option.some.inj hc
    exact ⟨b', rfl, congrArg Prod.fst h2,
      congrArg (fun q => q.2.1) h2, congrArg (fun q => q.2.2) h2⟩

/-- The key property of coalesce: with enough fuel (one unit per heap
    header, which is what coalesce supplies), starting from a well-formed
    heap and a non-mapped block, the block survives with its free flag,
    keeps a positive size, and its immediate successor - if it exists and
    has room for a header inside the heap - is not a free non-mapped
    block. -/
theorem coalesceFuel_post (fuel : Nat) : ∀ (s : MState) (a : Nat) (blk : Block),
    s.heap.length ≤ fuel → s.heapEnd < W → WfH s.heapEnd s.heap →
    getBlock s.heap a = some blk → blk.is_mmap = false →
    (coalesceFuel fuel s a).heapEnd = s.heapEnd ∧
    WfH s.heapEnd (coalesceFuel fuel s a).heap ∧
    ∃ blk', getBlock (coalesceFuel fuel s a).heap a = some blk' ∧
      blk'.is_mmap = false ∧ blk'.is_free = blk.is_free ∧ 0 < blk'.size ∧
      (s.heapEnd ≤ a + blk'.size ∨
       s.heapEnd < a + blk'.size + HDR ∨
       getBlock (coalesceFuel fuel s a).heap (a + blk'.size) = none ∨
       (∃ nb, getBlock (coalesceFuel fuel s a).heap (a + blk'.size) = some nb ∧
          (nb.is_free = false ∨ nb.is_mmap = true))) := by
  induction fuel with
  | zero =>
    intro s a blk hlen hW hwf hblk hmm
    have hnil : s.heap = [] := List.length_eq_zero.mp (Nat.le_zero.mp hlen)
    rw [hnil] at hblk
    cases hblk
  | succ f ih =>
    intro s a blk hlen hW hwf hblk hmm
    have hpos : 0 < blk.size ∧ a + blk.size ≤ s.heapEnd :=
      hwf (a, blk) (getBlock_mem s.heap a blk hblk)
    unfold coalesceFuel
    rw [hblk]
    dsimp only
    rw [if_neg (show ¬ blk.is_mmap = true by rw [hmm]; exact Bool.false_ne_true)]
    by_cases h1 : s.heapEnd ≤ a + blk.size
    · rw [if_pos h1]
      exact ⟨rfl, hwf, blk, hblk, hmm, rfl, hpos.1, Or.inl h1⟩
    rw [if_neg h1]
    by_cases h2 : s.heapEnd < a + blk.size + HDR
    · rw [if_pos h2]
      exact ⟨rfl, hwf, blk, hblk, hmm, rfl, hpos.1, Or.inr (Or.inl h2)⟩
    rw [if_neg h2]
    cases hnb : getBlock s.heap (a + blk.size) with
    | none =>
      exact ⟨rfl, hwf, blk, hblk, hmm, rfl, hpos.1, Or.inr (Or.inr (Or.inl hnb))⟩
    | some nb =>
      dsimp only
      by_cases hg : nb.is_free = true ∧ nb.is_mmap = false
      · rw [if_pos hg]
        have hnbpos : 0 < nb.size ∧ a + blk.size + nb.size ≤ s.heapEnd :=
          hwf (a + blk.size, nb) (getBlock_mem s.heap _ nb hnb)
        obtain ⟨hsurgCore, hsurgSome, hsurgLen, _⟩ := remove_surgery s (a + blk.size)
        obtain ⟨blkA, hgA, hAs, hAf, hAm⟩ :=
          hdrCore_transfer s.heap (remove_from_free_list s (a + blk.size)).heap
            a blk (hsurgCore a) hblk
        obtain ⟨nb1, hgB, hBs, hBf, hBm⟩ :=
          hdrCore_transfer s.heap (remove_from_free_list s (a + blk.size)).heap
            (a + blk.size) nb (hsurgCore (a + blk.size)) hnb
        have hsum : blkA.size + nb1.size = blk.size + nb.size := by rw [hAs, hBs]
        have hsumW : blkA.size + nb1.size < W := by
          rw [hAs, hBs]
          have h3 := hnbpos.2
          omega
        have hwrap : wrap64 (blkA.size + nb1.size) = blkA.size + nb1.size :=
          wrap64_small _ hsumW
        have hane : a ≠ a + blk.size := by omega
        have hStepHeap : (coalesceStep s a (a + blk.size)).heap
            = delBlock (setBlock (remove_from_free_list s (a + blk.size)).heap a
                { blkA with size := wrap64 (blkA.size + nb1.size) }) (a + blk.size) := by
          unfold coalesceStep
          dsimp only
          rw [hgA, hgB]
        have hStepEnd : (coalesceStep s a (a + blk.size)).heapEnd = s.heapEnd :=
          (coalesceStep_misc s a (a + blk.size)).2.2.2.2.2.2.1
        have hlenS : (coalesceStep s a (a + blk.size)).heap.length < s.heap.length :=
          coalesceStep_heap_lt s a (a + blk.size) (by rw [hnb]; rfl)
        have hwfS : WfH s.heapEnd (coalesceStep s a (a + blk.size)).heap := by
          rw [hStepHeap]
          apply WfH_delBlock
          apply WfH_setBlock_bound
          · constructor
            · show 0 < Block.size { blkA with size := wrap64 (blkA.size + nb1.size) }
              show 0 < wrap64 (blkA.size + nb1.size)
              rw [hwrap]
              omega
            · show a + Block.size { blkA with size := wrap64 (blkA.size + nb1.size) } ≤ s.heapEnd
              show a + wrap64 (blkA.size + nb1.size) ≤ s.heapEnd
              rw [hwrap, hsum]
              have := hnbpos.2
              omega
          · exact WfH_remove s.heapEnd s (a + blk.size) hwf
        have hgS : getBlock (coalesceStep s a (a + blk.size)).heap a
            = some { blkA with size := wrap64 (blkA.size + nb1.size) } := by
          rw [hStepHeap, getBlock_delBlock_other _ _ _ hane,
            getBlock_setBlock_self, hgA]
          rfl
        have hmmS : Block.is_mmap { blkA with size := wrap64 (blkA.size + nb1.size) } = false := by
          show blkA.is_mmap = false
          rw [hAm, hmm]
        obtain ⟨ihEnd, ihWf, blk', ihGet, ihMm, ihFr, ihPos, ihDisj⟩ :=
          ih (coalesceStep s a (a + blk.size)) a
            { blkA with size := wrap64 (blkA.size + nb1.size) }
            (by omega) (by rw [hStepEnd]; exact hW) (by rw [hStepEnd]; exact hwfS)
            hgS hmmS
        rw [hStepEnd] at ihEnd ihWf ihDisj
        refine ⟨ihEnd, ihWf, blk', ihGet, ihMm, ?_, ihPos, ihDisj⟩
        show blk'.is_free = blk.is_free
        rw [ihFr]
        show blkA.is_free = blk.is_free
        exact hAf
      · rw [if_neg hg]
        have hd : nb.is_free = false ∨ nb.is_mmap = true := by
          rcases Bool.eq_false_or_eq_true nb.is_free with hf | hf
          · rcases Bool.eq_false_or_eq_true nb.is_mmap with hm2 | hm2
            · exact Or.inr hm2
            · exact absurd ⟨hf, hm2⟩ hg
          · exact Or.inl hf
        exact ⟨rfl, hwf, blk, hblk, hmm, rfl, hpos.1,
          Or.inr (Or.inr (Or.inr ⟨nb, hnb, hd⟩))⟩

/-- C2 (amended): forward coalescing gives a local, not a global,
    guarantee.  Releasing a valid non-mapped block from a well-formed
    heap leaves that block free with no free non-mapped successor: right
    after the release, either the block reaches (or over-reaches) the
    heap end, or there is no room for a successor header, or no block
    starts at its end, or the block starting there is in use or mapped.
    Two free blocks can still sit adjacent at quiescence when a block is
    released while its physical predecessor is already free, as the
    counterexample shows: the code never merges backwards. -/
theorem mem_free_forward_coalesce (s : MState) (ptr : Nat) (blk : Block)
    (hph : HDR ≤ ptr)
    (hb : getBlock s.heap (ptr - HDR) = some blk)
    (hmm : blk.is_mmap = false)
    (hW : s.heapEnd < W)
    (hwf : WfH s.heapEnd s.heap) :
    ∃ blk', getBlock (mem_free s ptr).heap (ptr - HDR) = some blk' ∧
      blk'.is_free = true ∧ blk'.is_mmap = false ∧ 0 < blk'.size ∧
      ((mem_free s ptr).heapEnd ≤ (ptr - HDR) + blk'.size ∨
       (mem_free s ptr).heapEnd < (ptr - HDR) + blk'.size + HDR ∨
       getBlock (mem_free s ptr).heap ((ptr - HDR) + blk'.size) = none ∨
       (∃ nb, getBlock (mem_free s ptr).heap ((ptr - HDR) + blk'.size) = some nb ∧
         (nb.is_free = false ∨ nb.is_mmap = true))) := by
  have hp : ptr ≠ 0 := by unfold HDR at hph; omega
  have hlook : lookupAnyBlock s (ptr - HDR) = some blk := by
    unfold lookupAnyBlock
    rw [hb]
  obtain heq : mem_free s ptr =
      add_to_free_list
        (coalesce (addMarkFree (freeAccount s blk.size) (ptr - HDR)) (ptr - HDR))
        (ptr - HDR) := by
    rcases mem_free_cases s ptr with ⟨hd, _⟩ | ⟨blk2, _, hl2, hm2, _⟩ |
      ⟨blk2, _, hl2, _, heq2⟩
    · rcases hd with hd | hd
      · exact absurd hd hp
      · rw [hlook] at hd; cases hd
    · rw [hlook] at hl2
      obtain rfl : blk = blk2 := Option.some.inj hl2
      rw [hm2] at hmm
      cases hmm
    · rw [hlook] at hl2
      obtain rfl : blk = blk2 := Option.some.inj hl2
      exact heq2
  have hgA : getBlock (addMarkFree (freeAccount s blk.size) (ptr - HDR)).heap (ptr - HDR)
      = some { blk with is_free := true } := by
    unfold addMarkFree freeAccount
    dsimp only
    rw [hb]
    dsimp only
    rw [getBlock_setBlock_self, hb]
    rfl
  have hEndA : (addMarkFree (freeAccount s blk.size) (ptr - HDR)).heapEnd = s.heapEnd :=
    (addMarkFree_misc (freeAccount s blk.size) (ptr - HDR)).2.1
  have hwfA : WfH s.heapEnd (addMarkFree (freeAccount s blk.size) (ptr - HDR)).heap :=
    WfH_addMarkFree s.heapEnd (freeAccount s blk.size) (ptr - HDR) hwf
  obtain ⟨hEndC, hwfC, blk2, hgC, hmmC, hfrC, hposC, hdisjC⟩ :=
    coalesceFuel_post (addMarkFree (freeAccount s blk.size) (ptr - HDR)).heap.length
      (addMarkFree (freeAccount s blk.size) (ptr - HDR)) (ptr - HDR)
      { blk with is_free := true }
      (Nat.le_refl _) (by rw [hEndA]; exact hW) (by rw [hEndA]; exact hwfA)
      hgA (by show blk.is_mmap = false; exact hmm)
  rw [hEndA] at hEndC hwfC hdisjC
  have hfr2 : blk2.is_free = true := hfrC
  set sC := coalesceFuel (addMarkFree (freeAccount s blk.size) (ptr - HDR)).heap.length
    (addMarkFree (freeAccount s blk.size) (ptr - HDR)) (ptr - HDR) with hsC
  have hcoeq : coalesce (addMarkFree (freeAccount s blk.size) (ptr - HDR)) (ptr - HDR) = sC := rfl
  rw [hcoeq] at heq
  -- the final state
  have hEndF : (add_to_free_list sC (ptr - HDR)).heapEnd = sC.heapEnd :=
    (add_misc sC (ptr - HDR)).2.1
  have hcoreF : hdrCore (add_to_free_list sC (ptr - HDR)).heap (ptr - HDR)
      = some (blk2.size, true, blk2.is_mmap) :=
    add_hdrCore_self sC (ptr - HDR) blk2 hgC
  obtain ⟨blk', hgF, hsF, hfF, hmF⟩ : ∃ b',
      getBlock (add_to_free_list sC (ptr - HDR)).heap (ptr - HDR) = some b' ∧
      b'.size = blk2.size ∧ b'.is_free = true ∧ b'.is_mmap = blk2.is_mmap := by
    cases hx : getBlock (add_to_free_list sC (ptr - HDR)).heap (ptr - HDR) with
    | none => rw [hdrCore, hx] at hcoreF; cases hcoreF
    | some b' =>
      rw [hdrCore, hx] at hcoreF
      have h2 := Option.some.inj hcoreF
      exact ⟨b', rfl, congrArg Prod.fst h2, congrArg (fun q => q.2.1) h2,
        congrArg (fun q => q.2.2) h2⟩
  have hne : (ptr - HDR) + blk2.size ≠ (ptr - HDR) := by omega
  refine ⟨blk', by rw [heq]; exact hgF, hfF, by rw [hmF]; exact hmmC,
    by rw [hsF]; exact hposC, ?_⟩
  rw [heq, hEndF, hEndC, hsF]
  rcases hdisjC with hd | hd | hd | ⟨nb, hnb, hflag⟩
  · exact Or.inl hd
  · exact Or.inr (Or.inl hd)
  · refine Or.inr (Or.inr (Or.inl ?_))
    have hiso := isSome_getBlock_add sC (ptr - HDR) ((ptr - HDR) + blk2.size)
    rw [hd] at hiso
    cases hx : getBlock (add_to_free_list sC (ptr - HDR)).heap ((ptr - HDR) + blk2.size) with
    | none => rfl
    | some z => rw [hx] at hiso; cases hiso
  · refine Or.inr (Or.inr (Or.inr ?_))
    have hco := add_hdrCore_other sC (ptr - HDR) ((ptr - HDR) + blk2.size) hne
    obtain ⟨nb', hg', hs', hf', hm'⟩ :=
      hdrCore_transfer sC.heap (add_to_free_list sC (ptr - HDR)).heap
        ((ptr - HDR) + blk2.size) nb hco hnb
    refine ⟨nb', hg', ?_⟩
    rcases hflag with hflag | hflag
    · exact Or.inl (by rw [hf', hflag])
    · exact Or.inr (by rw [hm', hflag])

/-- Witness for C2 at a concrete release: freeing the single 144-byte
    allocation of a fresh heap leaves it free with its (in-use or
    absent) successor not free. -/
theorem mem_free_forward_coalesce_witness :
    ∃ blk', getBlock (mem_free (mem_malloc initState 100).2 32).heap (32 - HDR)
        = some blk' ∧
      blk'.is_free = true ∧ blk'.is_mmap = false ∧ 0 < blk'.size ∧
      ((mem_free (mem_malloc initState 100).2 32).heapEnd ≤ (32 - HDR) + blk'.size ∨
       (mem_free (mem_malloc initState 100).2 32).heapEnd < (32 - HDR) + blk'.size + HDR ∨
       getBlock (mem_free (mem_malloc initState 100).2 32).heap ((32 - HDR) + blk'.size)
         = none ∨
       (∃ nb, getBlock (mem_free (mem_malloc initState 100).2 32).heap
           ((32 - HDR) + blk'.size) = some nb ∧
         (nb.is_free = false ∨ nb.is_mmap = true))) :=
  mem_free_forward_coalesce (mem_malloc initState 100).2 32
    ⟨144, none, none, false, false⟩ (by decide) (by decide) (by decide)
    (by decide) (by unfold WfH; decide)

end CMemAlloc
